import Mathlib

/-!
# Verification of the quiz-generator server's JSON coercion and fallback core

This file gives a shallow embedding, in Lean 4, of the core logic of
`server.py`: the robust JSON coercer `clean_and_parse_json`, the text
extractor `extract_text_from_file`, the context truncation step, and the
explanation / quiz validation-and-fallback policy of `process_files`.

Python strings are modelled as `List Char`.  Python's `json.loads` and
`json.dumps` (the standard-library JSON codec that the source relies on)
are modelled by `pyJsonLoads` and `pyJsonDumps` over the JSON value type
`J`.  `pyJsonLoads` reproduces the behaviour of the CPython decoder,
including the distinct classes of `JSONDecodeError` messages that
`clean_and_parse_json` inspects to decide whether to attempt its
trailing-comma repair.  Two deliberate modelling restrictions, neither of
which any theorem below touches:
* JSON numbers are modelled as integers; a real-number literal
  (fraction/exponent, or `NaN`/`Infinity`) makes the modelled decoder
  return the distinguished error `JErr.floatUnsupported` instead of a
  floating-point value (floating point is outside the embedding);
* an unpaired surrogate `\uXXXX` escape (which CPython decodes to a lone
  surrogate code unit, a string Lean's `Char` cannot represent) is
  reported as `JErr.invalidEscape`.
JSON objects are modelled as ordered association lists.  Python `dict`
lookup is modelled by `jGet`, which takes the *last* binding of a key,
matching how `json.loads` resolves duplicate keys.
-/

/-! ## Character classes -/

/-- JSON whitespace skipped by the CPython decoder: space, tab, newline,
carriage return. -/
def isJsonWs (c : Char) : Bool :=
  c = ' ' || c = '\t' || c = '\n' || c = '\r'

/-- Whitespace stripped by Python `str.strip()` (the characters relevant
here: ASCII whitespace plus NEL and the no-break space). -/
def isPyWs (c : Char) : Bool :=
  c = ' ' || c = '\t' || c = '\n' || c = '\r' ||
  c.toNat = 0x0b || c.toNat = 0x0c || c.toNat = 0x85 || c.toNat = 0xa0

/-- Characters matched by `\s` in a Python `re` pattern (same set as
`isPyWs` for the inputs considered here). -/
def isReWs (c : Char) : Bool := isPyWs c

/-- ASCII control characters stripped by `clean_and_parse_json`
(`[\x00-\x1F\x7F]`). -/
def isCtl (c : Char) : Bool := c.toNat ≤ 0x1f || c.toNat = 0x7f

/-- Printable ASCII (space through tilde).  Every character emitted by
`pyJsonDumps` (which models `json.dumps` with its default
`ensure_ascii=True`) is in this range. -/
def isPrintableAscii (c : Char) : Bool := 0x20 ≤ c.toNat && c.toNat ≤ 0x7e

/-! ## JSON values -/

/-- JSON values: the universe handled by the modelled `json` codec.
Numbers are integers (see the module comment); objects are ordered
association lists. -/
inductive J where
  | null
  | bool (b : Bool)
  | num (n : Int)
  | str (s : List Char)
  | arr (elems : List J)
  | obj (pairs : List (List Char × J))

/-- `true` exactly on arrays; used to pick the bracket pair the coercer
looks for (`is_list` in the source). -/
def J.isArr : J → Bool
  | .arr _ => true
  | _ => false

/-- `true` exactly on objects. -/
def J.isObj : J → Bool
  | .obj _ => true
  | _ => false

/-- Python truthiness of a decoded JSON value (`if temp_quiz_data:` and
the `q.get(...)` checks in the source): `None`, `False`, `0`, and empty
containers are falsy. -/
def pyTruthy : J → Bool
  | .null => false
  | .bool b => b
  | .num n => decide (n ≠ 0)
  | .str s => !s.isEmpty
  | .arr l => !l.isEmpty
  | .obj kvs => !kvs.isEmpty

/-- Python `dict` lookup on a decoded object: with duplicate keys,
`json.loads` keeps the last binding, so lookup returns the last pair
with the requested key. -/
def jGet (kvs : List (List Char × J)) (k : List Char) : Option J :=
  (kvs.reverse.find? (fun p => p.1 = k)).map (·.2)

mutual

/-- Keys of every object in the value are duplicate-free: the values
representable as Python `dict`s.  (The round-trip theorem is stated over
these.) -/
def jWF : J → Bool
  | .null => true
  | .bool _ => true
  | .num _ => true
  | .str _ => true
  | .arr l => jWFList l
  | .obj kvs => decide ((kvs.map (·.1)).Nodup) && jWFPairs kvs

def jWFList : List J → Bool
  | [] => true
  | x :: xs => jWF x && jWFList xs

def jWFPairs : List (List Char × J) → Bool
  | [] => true
  | kv :: tl => jWF kv.2 && jWFPairs tl

end

/-! ## Serialization: model of `json.dumps` (default options) -/

/-- Decimal digits of a natural number, most significant first, with a
recursion budget (one unit per digit, so any budget above the number
itself is plenty). -/
def natDigitsAux : Nat → Nat → List Char
  | 0, _ => []
  | fuel + 1, n =>
    if n < 10 then [Char.ofNat (48 + n)]
    else natDigitsAux fuel (n / 10) ++ [Char.ofNat (48 + n % 10)]

/-- Decimal digits of a natural number, most significant first
(`str(n)` for `n : Nat`). -/
def natDigits (n : Nat) : List Char := natDigitsAux (n + 1) n

/-- `str(n)` for `n : Int`. -/
def intChars (n : Int) : List Char :=
  if n < 0 then '-' :: natDigits (-n).toNat else natDigits n.toNat

/-- Lowercase hex digit, as produced by `json.dumps`'s `\uXXXX` escapes. -/
def hexChar (n : Nat) : Char :=
  if n < 10 then Char.ofNat (48 + n) else Char.ofNat (87 + n)

/-- Four lowercase hex digits of `n < 0x10000` (`"%04x" % n`). -/
def hex4 (n : Nat) : List Char :=
  [hexChar (n / 4096 % 16), hexChar (n / 256 % 16), hexChar (n / 16 % 16),
   hexChar (n % 16)]

/-- How `json.dumps` (with its default `ensure_ascii=True`) renders one
character of a string: the two-character shortcuts for `"` `\` and the
common control characters, raw printable ASCII, and `\uXXXX` (with a
surrogate pair above `0xFFFF`) for everything else. -/
def escapeChar (c : Char) : List Char :=
  if c = '"' then ['\\', '"']
  else if c = '\\' then ['\\', '\\']
  else if c.toNat = 8 then ['\\', 'b']
  else if c.toNat = 12 then ['\\', 'f']
  else if c = '\n' then ['\\', 'n']
  else if c = '\r' then ['\\', 'r']
  else if c = '\t' then ['\\', 't']
  else if 0x20 ≤ c.toNat ∧ c.toNat ≤ 0x7e then [c]
  else if c.toNat < 0x10000 then '\\' :: 'u' :: hex4 c.toNat
  else
    let n := c.toNat - 0x10000
    ('\\' :: 'u' :: hex4 (0xd800 + n / 0x400)) ++
      ('\\' :: 'u' :: hex4 (0xdc00 + n % 0x400))

/-- Escaped body of a serialized string. -/
def escStr (s : List Char) : List Char := s.flatMap escapeChar

/-- A serialized string literal, quotes included. -/
def serStr (s : List Char) : List Char := '"' :: escStr s ++ ['"']

mutual

/-- Model of `json.dumps` with its defaults (`ensure_ascii=True`,
separators `", "` and `": "`). -/
def pyJsonDumps : J → List Char
  | .null => ['n', 'u', 'l', 'l']
  | .bool true => 't' :: ['r', 'u', 'e']
  | .bool false => 'f' :: ['a', 'l', 's', 'e']
  | .num n => intChars n
  | .str s => serStr s
  | .arr [] => ['[', ']']
  | .arr (x :: xs) => '[' :: (pyJsonDumps x ++ serItems xs) ++ [']']
  | .obj [] => ['{', '}']
  | .obj (kv :: kvs) => '{' :: (serPair kv ++ serPairs kvs) ++ ['}']

/-- `", elem"` repeated: the tail of a serialized array body. -/
def serItems : List J → List Char
  | [] => []
  | x :: xs => ',' :: ' ' :: pyJsonDumps x ++ serItems xs

/-- `"key": value` — one serialized object member. -/
def serPair : List Char × J → List Char
  | (k, v) => serStr k ++ ':' :: ' ' :: pyJsonDumps v

/-- `", member"` repeated: the tail of a serialized object body. -/
def serPairs : List (List Char × J) → List Char
  | [] => []
  | kv :: kvs => ',' :: ' ' :: serPair kv ++ serPairs kvs

end

/-! ## Decoding: model of `json.loads` -/

/-- The classes of `json.JSONDecodeError` message the source
distinguishes (`clean_and_parse_json` string-matches `"Expecting ','
delimiter"` and `"Extra data"`), plus the remaining CPython error
messages lumped by kind.  `floatUnsupported` marks inputs whose decoding
needs floating point (outside this embedding); `fuelExhausted` is the
recursion-budget guard, unreachable when the budget is at least the
input length. -/
inductive JErr where
  | expectingValue
  | expectingPropertyName
  | expectingColonDelimiter
  | expectingCommaDelimiter
  | extraData
  | unterminatedString
  | invalidEscape
  | floatUnsupported
  | fuelExhausted
deriving DecidableEq

/-- Value of a hex digit, either case (`\uXXXX` escapes). -/
def hexDigit? (c : Char) : Option Nat :=
  if '0' ≤ c ∧ c ≤ '9' then some (c.toNat - 48)
  else if 'a' ≤ c ∧ c ≤ 'f' then some (c.toNat - 87)
  else if 'A' ≤ c ∧ c ≤ 'F' then some (c.toNat - 55)
  else none

/-- Decode the four hex digits of a `\uXXXX` escape. -/
def decodeU : List Char → Option (Nat × List Char)
  | a :: b :: c :: d :: rest =>
    match hexDigit? a, hexDigit? b, hexDigit? c, hexDigit? d with
    | some ha, some hb, some hc, some hd =>
      some (4096 * ha + 256 * hb + 16 * hc + hd, rest)
    | _, _, _, _ => none
  | _ => none

/-- After a high surrogate `\uXXXX` (value `m`), decode the required low
surrogate and combine the pair into one code point. -/
def decodeSurrogatePair (m : Nat) : List Char → Except JErr (Char × List Char)
  | e2 :: u2 :: r4 =>
    if e2 = '\\' ∧ u2 = 'u' then
      match decodeU r4 with
      | some (m2, r5) =>
        if 0xdc00 ≤ m2 ∧ m2 ≤ 0xdfff then
          .ok (Char.ofNat (0x10000 + (m - 0xd800) * 0x400 + (m2 - 0xdc00)), r5)
        else .error .invalidEscape
      | none => .error .invalidEscape
    else .error .invalidEscape
  | _ => .error .invalidEscape

/-- Decode one backslash escape (the backslash itself already consumed):
the short escapes, or `\uXXXX` with surrogate-pair combination.  An
unpaired surrogate is `invalidEscape` (see the module comment). -/
def decodeEscape : List Char → Except JErr (Char × List Char)
  | [] => .error .unterminatedString
  | e :: r2 =>
    if e = 'u' then
      match decodeU r2 with
      | some (m, r3) =>
        if 0xd800 ≤ m ∧ m ≤ 0xdbff then decodeSurrogatePair m r3
        else if 0xdc00 ≤ m ∧ m ≤ 0xdfff then .error .invalidEscape
        else .ok (Char.ofNat m, r3)
      | none => .error .invalidEscape
    else if e = '"' then .ok ('"', r2)
    else if e = '\\' then .ok ('\\', r2)
    else if e = '/' then .ok ('/', r2)
    else if e = 'b' then .ok (Char.ofNat 8, r2)
    else if e = 'f' then .ok (Char.ofNat 12, r2)
    else if e = 'n' then .ok ('\n', r2)
    else if e = 'r' then .ok ('\r', r2)
    else if e = 't' then .ok ('\t', r2)
    else .error .invalidEscape

/-- Model of CPython's `scanstring` (strict mode), entered just after the
opening quote: returns the decoded characters and the input after the
closing quote.  The recursion budget decreases once per decoded
character; every step consumes at least one input character, so a budget
above the input length never runs out. -/
def parseStringAux : Nat → List Char → List Char → Except JErr (List Char × List Char)
  | _, _, [] => .error .unterminatedString
  | 0, _, _ :: _ => .error .fuelExhausted
  | fuel + 1, acc, c :: rest =>
    if c = '"' then .ok (acc.reverse, rest)
    else if c = '\\' then
      match decodeEscape rest with
      | .ok (d, r2) => parseStringAux fuel (d :: acc) r2
      | .error e => .error e
    else if c.toNat < 0x20 then .error .invalidEscape
    else parseStringAux fuel (c :: acc) rest

/-- `scanstring` with its budget chosen from the input length. -/
def parseString (s : List Char) : Except JErr (List Char × List Char) :=
  parseStringAux (s.length + 1) [] s

/-- Digit-accumulation loop of the number scanner: consumes the longest
run of digits, extending `acc`. -/
def digitsToNat : Nat → List Char → Nat × List Char
  | acc, [] => (acc, [])
  | acc, c :: rest =>
    if c.isDigit then digitsToNat (acc * 10 + (c.toNat - 48)) rest
    else (acc, c :: rest)

/-- The integer part matched by CPython's `NUMBER_RE`
(`0|[1-9]\d*`): a leading `0` is a complete match on its own. -/
def parseUInt : List Char → Option (Nat × List Char)
  | [] => none
  | c :: rest =>
    if c = '0' then some (0, rest)
    else if c.isDigit then some (digitsToNat (c.toNat - 48) rest) else none

/-- Whether `NUMBER_RE` would extend the match past the integer part
(a fraction `.\d` or an exponent), i.e. the literal denotes a Python
float. -/
def isFloatCont : List Char → Bool
  | [] => false
  | c :: r =>
    if c = '.' then
      match r with
      | c2 :: _ => c2.isDigit
      | [] => false
    else if c = 'e' || c = 'E' then
      match r with
      | '+' :: c2 :: _ => c2.isDigit
      | '-' :: c2 :: _ => c2.isDigit
      | c2 :: _ => c2.isDigit
      | [] => false
    else false

/-- Number scanner (integer literals; a float literal is reported as
`floatUnsupported`, see the module comment).  Anything that is not a
number at all is `expectingValue`, as in CPython's scanner. -/
def parseNumber : List Char → Except JErr (J × List Char)
  | [] => .error .expectingValue
  | c :: rest =>
    if c = '-' then
      match parseUInt rest with
      | some (n, r) =>
        if isFloatCont r then .error .floatUnsupported
        else .ok (.num (-(n : Int)), r)
      | none => .error .expectingValue
    else
      match parseUInt (c :: rest) with
      | some (n, r) =>
        if isFloatCont r then .error .floatUnsupported
        else .ok (.num (n : Int), r)
      | none => .error .expectingValue

mutual

/-- Model of CPython's `scan_once`: decode one JSON value starting at the
head of the input (leading whitespace is *not* skipped here, matching the
decoder).  `fuel` is a recursion budget decremented on every call in this
mutual block; each block call consumes at least one input character
before the next visit to the same function, so the generous budget
`pyJsonLoads` supplies (four units per input character, plus slack) never
runs out. -/
def parseVal : Nat → List Char → Except JErr (J × List Char)
  | 0, _ => .error .fuelExhausted
  | _ + 1, [] => .error .expectingValue
  | fuel + 1, c :: rest =>
      if c = '"' then
        match parseString rest with
        | .ok (str, r) => .ok (.str str, r)
        | .error e => .error e
      else if c = '{' then parseObj fuel rest
      else if c = '[' then parseArr fuel rest
      else if c = 'n' then
        if rest.take 3 = ['u', 'l', 'l'] then .ok (.null, rest.drop 3)
        else .error .expectingValue
      else if c = 't' then
        if rest.take 3 = ['r', 'u', 'e'] then .ok (.bool true, rest.drop 3)
        else .error .expectingValue
      else if c = 'f' then
        if rest.take 4 = ['a', 'l', 's', 'e'] then .ok (.bool false, rest.drop 4)
        else .error .expectingValue
      else if c = 'N' then
        if rest.take 2 = ['a', 'N'] then .error .floatUnsupported
        else .error .expectingValue
      else if c = 'I' then
        if rest.take 7 = ['n', 'f', 'i', 'n', 'i', 't', 'y'] then .error .floatUnsupported
        else .error .expectingValue
      else if c = '-' then
        if rest.take 8 = ['I', 'n', 'f', 'i', 'n', 'i', 't', 'y'] then .error .floatUnsupported
        else parseNumber (c :: rest)
      else parseNumber (c :: rest)

/-- Model of CPython's `JSONArray`, entered just after `[`. -/
def parseArr : Nat → List Char → Except JErr (J × List Char)
  | 0, _ => .error .fuelExhausted
  | fuel + 1, s =>
    match s.dropWhile isJsonWs with
    | ']' :: r => .ok (.arr [], r)
    | s1 =>
      match parseElems fuel s1 with
      | .ok (vs, r) => .ok (.arr vs, r)
      | .error e => .error e

/-- The element loop of `JSONArray`: one value, then `]` to finish or
`,` (whitespace-tolerant) to continue. -/
def parseElems : Nat → List Char → Except JErr (List J × List Char)
  | 0, _ => .error .fuelExhausted
  | fuel + 1, s =>
    match parseVal fuel s with
    | .error e => .error e
    | .ok (v, r) =>
      match r.dropWhile isJsonWs with
      | ']' :: r2 => .ok ([v], r2)
      | ',' :: r2 =>
        match parseElems fuel (r2.dropWhile isJsonWs) with
        | .ok (vs, r3) => .ok (v :: vs, r3)
        | .error e => .error e
      | _ => .error .expectingCommaDelimiter

/-- Model of CPython's `JSONObject`, entered just after `{`: `}` closes
an empty object, a quote starts the member loop, anything else is the
"Expecting property name enclosed in double quotes" error. -/
def parseObj : Nat → List Char → Except JErr (J × List Char)
  | 0, _ => .error .fuelExhausted
  | fuel + 1, s =>
    match s.dropWhile isJsonWs with
    | '}' :: r => .ok (.obj [], r)
    | '"' :: r =>
      match parseMembers fuel r with
      | .ok (kvs, r2) => .ok (.obj kvs, r2)
      | .error e => .error e
    | _ => .error .expectingPropertyName

/-- The member loop of `JSONObject`, entered just after a key's opening
quote: key, `:`, value, then `}` to finish or `,` followed by the next
key's quote — a `,` followed by anything else (in particular the `}` of
a trailing comma) is the "Expecting property name" error, not the
"Expecting ',' delimiter" one. -/
def parseMembers : Nat → List Char → Except JErr (List (List Char × J) × List Char)
  | 0, _ => .error .fuelExhausted
  | fuel + 1, s =>
    match parseString s with
    | .error e => .error e
    | .ok (k, r) =>
      match r.dropWhile isJsonWs with
      | ':' :: r2 =>
        match parseVal fuel (r2.dropWhile isJsonWs) with
        | .error e => .error e
        | .ok (v, r3) =>
          match r3.dropWhile isJsonWs with
          | '}' :: r4 => .ok ([(k, v)], r4)
          | ',' :: r4 =>
            match r4.dropWhile isJsonWs with
            | '"' :: r5 =>
              match parseMembers fuel r5 with
              | .ok (kvs, r6) => .ok ((k, v) :: kvs, r6)
              | .error e => .error e
            | _ => .error .expectingPropertyName
          | _ => .error .expectingCommaDelimiter
      | _ => .error .expectingColonDelimiter

end

/-- Model of `json.loads`: skip leading whitespace, decode one value,
skip trailing whitespace, and require the input to be exhausted
(`"Extra data"` otherwise). -/
def pyJsonLoads (s : List Char) : Except JErr J :=
  let s1 := s.dropWhile isJsonWs
  match parseVal (4 * s1.length + 8) s1 with
  | .error e => .error e
  | .ok (v, rest) =>
    if rest.dropWhile isJsonWs = [] then .ok v else .error .extraData

/-! ## The coercer: `clean_and_parse_json` -/

/-- Python `str.strip()`. -/
def pyStrip (s : List Char) : List Char :=
  ((s.dropWhile isPyWs).reverse.dropWhile isPyWs).reverse

/-- First half of the coercer's fence stripping: if the text starts with
three backticks, drop them together with an optional language tag and
following whitespace (the `re.match(r'```[a-zA-Z]*\s*', text)` prefix —
the regex always matches when the text starts with the backticks). -/
def stripFenceStart (t : List Char) : List Char :=
  match t with
  | '`' :: '`' :: '`' :: r => (r.dropWhile Char.isAlpha).dropWhile isReWs
  | _ => t

/-- Second half: if the text ends with three backticks, drop them
(`text.endswith('```')`). -/
def stripFenceEnd (t : List Char) : List Char :=
  match t.reverse with
  | '`' :: '`' :: '`' :: r => r.reverse
  | _ => t

/-- Step 1 of the coercer: leading fence, then trailing fence. -/
def stripMarkdownFences (t : List Char) : List Char := stripFenceEnd (stripFenceStart t)

/-- The stripping pipeline applied before bracket location: outer
`strip()`, fence removal, `strip()` again. -/
def coercerPreprocess (text : List Char) : List Char :=
  pyStrip (stripMarkdownFences (pyStrip text))

/-- Python `str.find(c)`: index of the first occurrence, if any
(the source's `-1` failure value is `none` here). -/
def pyFind (c : Char) (s : List Char) : Option Nat :=
  s.findIdx? (· = c)

/-- Python `str.rfind(c)`: index of the last occurrence, if any. -/
def pyRfind (c : Char) (s : List Char) : Option Nat :=
  match s.reverse.findIdx? (· = c) with
  | some i => some (s.length - 1 - i)
  | none => none

/-- Step 3 of the coercer, first half: the chained `str.replace` calls
mapping typographic quotes to straight quotes and the no-break space to
a plain space. -/
def replaceQuotesNbsp (c : Char) : Char :=
  if c.toNat = 0x201c then '"'
  else if c.toNat = 0x201d then '"'
  else if c.toNat = 0x2018 then '\''
  else if c.toNat = 0x2019 then '\''
  else if c.toNat = 0xa0 then ' '
  else c

/-- One step-bounded pass of the repair regex (one budget unit per
emitted character; every step consumes at least one input character, so
a budget above the input length never runs out). -/
def fixTCAux : Nat → List Char → List Char
  | 0, s => s
  | _, [] => []
  | fuel + 1, c :: rest =>
    if c = ',' then
      match rest.dropWhile isReWs with
      | d :: t =>
        if d = '}' ∨ d = ']' then d :: fixTCAux fuel t
        else ',' :: fixTCAux fuel rest
      | [] => ',' :: fixTCAux fuel rest
    else c :: fixTCAux fuel rest

/-- The repair pass `re.sub(r',\s*([}\]])', r'\1', ...)`: one
left-to-right pass removing each comma that precedes (up to whitespace)
a closing brace or bracket. -/
def fixTrailingCommas (s : List Char) : List Char := fixTCAux (s.length + 1) s

/-- Model of `clean_and_parse_json(text, is_list)` (`server.py`,
lines 123–176): empty-text guard, fence stripping, bracket location and
slicing, quote/space normalization, control-character stripping, strict
parse, and the one-shot trailing-comma repair attempted only when the
parse error is of the `Expecting ',' delimiter` or `Extra data` class. -/
def clean_and_parse_json (text : List Char) (is_list : Bool) : Option J :=
  if text.isEmpty then none
  else
    let t := coercerPreprocess text
    let start_char := if is_list then '[' else '{'
    let end_char := if is_list then ']' else '}'
    match pyFind start_char t, pyRfind end_char t with
    | some start_index, some end_index =>
      if end_index < start_index then none
      else
        let json_content := (t.drop start_index).take (end_index + 1 - start_index)
        let json_content := json_content.map replaceQuotesNbsp
        let json_content := json_content.filter (fun c => !isCtl c)
        match pyJsonLoads json_content with
        | .ok v => some v
        | .error e =>
          if e = .expectingCommaDelimiter ∨ e = .extraData then
            match pyJsonLoads (fixTrailingCommas json_content) with
            | .ok v => some v
            | .error _ => none
          else none
    | _, _ => none

/-! ## `process_files`: context truncation -/

/-- `MAX_API_CONTEXT_SIZE` from the source. -/
def MAX_API_CONTEXT_SIZE : Nat := 8000

/-- The marker appended after slicing when the combined context exceeds
the budget. -/
def truncationMarker : List Char :=
  "\n\n[...Content truncated for API processing efficiency]".toList

/-- The truncation step applied to `combined_text` before the prompts
are built (`server.py`, lines 280–281). -/
def truncateContext (s : List Char) : List Char :=
  if s.length > MAX_API_CONTEXT_SIZE then
    s.take MAX_API_CONTEXT_SIZE ++ truncationMarker
  else s

/-! ## `process_files`: explanation validation and fallback -/

/-- Python `str.split('\n\n')`: split on each non-overlapping occurrence
of two consecutive newlines; always returns at least one (possibly
empty) piece. -/
def splitOnBlank : List Char → List (List Char)
  | [] => [[]]
  | '\n' :: '\n' :: rest => [] :: splitOnBlank rest
  | c :: rest =>
    match splitOnBlank rest with
    | p :: ps => (c :: p) :: ps
    | [] => [[c]]

/-- Topic of the synthesized fallback explanation. -/
def explanationFailTopic : List Char :=
  "Study Material Analysis (Failed to Parse JSON)".toList

/-- Placeholder content used when there is no completion text at all. -/
def explanationPlaceholder : List Char :=
  "Unable to generate explanation or parse response.".toList

/-- Content of the fallback explanation: the first five blank-line-
separated blocks of the raw completion text, or the placeholder when the
completion text is `None` or empty (Python truthiness). -/
def explanationFallbackContent (explanation_text : Option (List Char)) : List J :=
  match explanation_text with
  | some t =>
    if t.isEmpty then [J.str explanationPlaceholder]
    else ((splitOnBlank t).take 5).map J.str
  | none => [J.str explanationPlaceholder]

/-- The parse attempt on the explanation completion: the coercer runs
only when the completion text is truthy. -/
def explanationParsed (explanation_text : Option (List Char)) : Option J :=
  match explanation_text with
  | some t => if t.isEmpty then none else clean_and_parse_json t false
  | none => none

/-- `explanation_data` after the fallback branch (`server.py`,
lines 326–337): the coercer's output if any, else the synthesized
fallback object. -/
def explanationData (explanation_text : Option (List Char)) : J :=
  match explanationParsed explanation_text with
  | some d => d
  | none =>
    J.obj [("topic".toList, J.str explanationFailTopic),
           ("content".toList, J.arr (explanationFallbackContent explanation_text))]

/-- `explanation_for_storage`: the parsed value wrapped in a one-element
list when it is a dict, the value itself otherwise (`server.py`,
line 340). -/
def explanationField (explanation_text : Option (List Char)) : J :=
  match explanationData explanation_text with
  | J.obj kvs => J.arr [J.obj kvs]
  | d => d

/-! ## `process_files`: quiz validation and fallback -/

/-- The named-key unwrap applied when the coercer's output is not a list
(`server.py`, lines 384–390): try `quiz` then `questions` (each must be
bound to a list), else wrap the single value as a one-element list. -/
def unwrapQuiz (t : J) : List J :=
  match t with
  | .arr l => l
  | .obj kvs =>
    match jGet kvs "quiz".toList with
    | some (J.arr l) => l
    | _ =>
      match jGet kvs "questions".toList with
      | some (J.arr l) => l
      | _ => [t]
  | _ => [t]

/-- The per-question validity filter (`server.py`, lines 395–400):
a dict with truthy `question`, `options` and `correctAnswer`, whose
`options` is a list of length at least 4. -/
def isValidQuestion (q : J) : Bool :=
  match q with
  | .obj kvs =>
    (match jGet kvs "question".toList with
     | some v => pyTruthy v
     | none => false) &&
    (match jGet kvs "options".toList with
     | some v => pyTruthy v
     | none => false) &&
    (match jGet kvs "correctAnswer".toList with
     | some v => pyTruthy v
     | none => false) &&
    (match jGet kvs "options".toList with
     | some (J.arr l) => decide (4 ≤ l.length)
     | _ => false)
  | _ => false

/-- `quiz_data` before the final fallback check: `none` when the
completion is missing/empty, the coercer fails, or the coerced value is
falsy; otherwise the filtered question list. -/
def quizDataOpt (quiz_text : Option (List Char)) : Option (List J) :=
  match quiz_text with
  | none => none
  | some qt =>
    if qt.isEmpty then none
    else
      match clean_and_parse_json qt true with
      | none => none
      | some tq =>
        if pyTruthy tq then some ((unwrapQuiz tq).filter isValidQuestion)
        else none

/-- The single fixed fallback question (`server.py`, lines 409–415). -/
def fallbackQuestion : J :=
  J.obj
    [("question".toList,
      J.str "Quiz generation failed (Error: Not enough valid questions generated).".toList),
     ("options".toList,
      J.arr [J.str "A) Please check the content.".toList,
             J.str "B) Try re-uploading the file.".toList,
             J.str "C) The material might be too short or complex.".toList,
             J.str "D) All of the above.".toList]),
     ("correctAnswer".toList, J.str "D".toList)]

/-- Whether the final fallback branch replaces the quiz
(`if quiz_data is None or len(quiz_data) < 5`). -/
def quizFallbackTriggered (quiz_text : Option (List Char)) : Bool :=
  match quizDataOpt quiz_text with
  | none => true
  | some l => decide (l.length < 5)

/-- The quiz emitted in the response: the filtered questions, or the
single fallback question when the minimum viable size check fails. -/
def finalQuiz (quiz_text : Option (List Char)) : List J :=
  match quizDataOpt quiz_text with
  | some l => if l.length < 5 then [fallbackQuestion] else l
  | none => [fallbackQuestion]

/-- The questions that "survive after coercion and filtering": the
validity-filtered content of the coerced completion, empty when nothing
was coerced.  (The spec's characterization of when the fallback fires.) -/
def survivingQuestions (quiz_text : Option (List Char)) : List J :=
  match quiz_text with
  | none => []
  | some qt =>
    match clean_and_parse_json qt true with
    | none => []
    | some tq => (unwrapQuiz tq).filter isValidQuestion


/-! ## `extract_text_from_file` -/

/-- `MAX_TEXT_SIZE_BYTES` from the source (the TXT byte cap; byte-level
truncation and UTF-8 decoding are abstracted into the `txtDecode` oracle
of `extract_text_from_file`). -/
def MAX_TEXT_SIZE_BYTES : Nat := 5 * 1024 * 1024

/-- `MAX_PDF_PAGES` from the source. -/
def MAX_PDF_PAGES : Nat := 1000

/-- The marker appended when accumulated PDF text exceeds twice the API
context budget. -/
def pdfTruncationMarker : List Char :=
  "\n[Content truncated due to size limit during extraction]".toList

/-- The page loop of the PDF branch (`server.py`, lines 91–103): a page
whose `extract_text()` raised is skipped; non-empty page text is
accumulated with a newline; when the accumulated text exceeds twice the
API context budget it is sliced, the truncation marker appended, and the
loop exits early. -/
def pdfPageLoop : List (Except (List Char) (List Char)) → List Char → List Char
  | [], text => text
  | .error _ :: rest, text => pdfPageLoop rest text
  | .ok ptxt :: rest, text =>
    let text2 := if !ptxt.isEmpty then text ++ ptxt ++ ['\n'] else text
    if text2.length > MAX_API_CONTEXT_SIZE * 2 then
      text2.take (MAX_API_CONTEXT_SIZE * 2) ++ pdfTruncationMarker
    else pdfPageLoop rest text2

/-- `filename.rsplit(".", 1)[1].lower()`: the characters after the last
dot, lowercased.  (With no dot the Python expression would raise; the
caller only reaches it behind the `allowed_file` check, which requires a
dot — the model returns `[]` there.) -/
def fileExtension (filename : List Char) : List Char :=
  if filename.contains '.' then
    ((filename.reverse.takeWhile (fun c => ¬ c = '.')).reverse).map Char.toLower
  else []

/-- `allowed_file` from the source: a dot plus a `pdf`/`txt` extension. -/
def allowed_file (filename : List Char) : Bool :=
  filename.contains '.' &&
    (fileExtension filename = "pdf".toList || fileExtension filename = "txt".toList)

/-- The `[Note: ...]` line appended when a PDF has more pages than the
processing bound. -/
def pdfPagesNote (total toProcess : Nat) : List Char :=
  "\n[Note: PDF has ".toList ++ natDigits total ++ " pages, processed first ".toList ++
    natDigits toProcess ++ " pages]".toList

/-- Model of `extract_text_from_file` (`server.py`, lines 66–120).  The
file's bytes and the library calls on them are abstracted as oracles:
`txtDecode` is the outcome of `bytes.decode("utf-8", errors="ignore")`
on the size-capped bytes (its `Except` error carries the message of an
exception, caught by the branch's `try`; with `errors="ignore"` CPython
in fact never raises there), and `pdfPages` is the outcome of
constructing `PyPDF2.PdfReader` and touching its pages (reader-level
exception, or one outcome per page).  The function itself is total:
every branch returns a string, the exceptional ones a bracketed
diagnostic embedding the filename and the exception message. -/
def extract_text_from_file (filename : List Char) (pdfSupport : Bool)
    (txtDecode : Except (List Char) (List Char))
    (pdfPages : Except (List Char) (List (Except (List Char) (List Char)))) : List Char :=
  let extension := fileExtension filename
  if extension = "txt".toList then
    match txtDecode with
    | .ok s => s
    | .error e =>
      "[TXT parsing failed for ".toList ++ filename ++ ". Error: ".toList ++ e ++ "]".toList
  else if extension = "pdf".toList ∧ pdfSupport then
    match pdfPages with
    | .error e =>
      "[PDF parsing failed for ".toList ++ filename ++
        ". The file may be corrupt or non-standard. Error: ".toList ++ e ++ "]".toList
    | .ok pages =>
      let toProcess := min pages.length MAX_PDF_PAGES
      let text := pdfPageLoop (pages.take toProcess) []
      let text2 :=
        if toProcess < pages.length then text ++ pdfPagesNote pages.length toProcess else text
      if !(pyStrip text2).isEmpty then text2
      else
        "[Text extraction from ".toList ++ filename ++
          " failed. File may be a scanned image without a text layer.]".toList
  else if extension = "pdf".toList then
    "[PDF file uploaded but PyPDF2 library not installed for text extraction.]".toList
  else
    "[File type .".toList ++ extension ++ " is not supported.]".toList

/-! ## Proof-support definitions -/

mutual

/-- A size measure on JSON values driving the round-trip induction. -/
def jsize : J → Nat
  | .null => 1
  | .bool _ => 1
  | .num _ => 1
  | .str _ => 1
  | .arr l => 1 + jsizeList l
  | .obj kvs => 1 + jsizePairs kvs

def jsizeList : List J → Nat
  | [] => 0
  | x :: xs => 1 + jsize x + jsizeList xs

def jsizePairs : List (List Char × J) → Nat
  | [] => 0
  | kv :: tl => 1 + jsize kv.2 + jsizePairs tl

end

/-- The input following a serialized number may not start with a
character that CPython's `NUMBER_RE` would absorb into the number (a
digit, a fraction dot, or an exponent letter).  Every continuation the
serializer produces — a separator, a closing bracket, or the end of
input — satisfies this. -/
def numBoundary : List Char → Bool
  | [] => true
  | c :: _ => !(c.isDigit || c = '.' || c = 'e' || c = 'E')

/-- The facts needed of the first character of any serialized value:
it is not whitespace and not a closing bracket, so the surrounding
array/object loop hands it to the value scanner untouched. -/
def dumpsHeadOK (c : Char) : Bool :=
  !isJsonWs c && !(c = ']') && !(c = '}')

/-- A concrete value exercising the C6 round trip. -/
def roundtripExample : J :=
  J.obj [("a".toList, J.num (-5)),
         ("b".toList, J.arr [J.str "x y".toList, J.null, J.bool true, J.num 12])]

/-- A concrete JSON text exercising the explanation path: a valid object
that lacks both `topic` and `content`. -/
def explanationCounterexampleText : List Char :=
  '{' :: '"' :: 'a' :: '"' :: ':' :: ' ' :: '1' :: '}' :: []

/-- A question that passes the validity filter while violating the
spec's QuizQuestion shape: five options and correct answer `E`. -/
def badQuestionKvs : List (List Char × J) :=
  [("question".toList, J.str ['q']),
   ("options".toList,
    J.arr [J.str ['a'], J.str ['b'], J.str ['c'], J.str ['d'], J.str ['e']]),
   ("correctAnswer".toList, J.str ['E'])]

def badQuestion : J := J.obj badQuestionKvs

/-- Five copies: enough to clear the minimum-viable-quiz check. -/
def badQuizList : List J :=
  [badQuestion, badQuestion, badQuestion, badQuestion, badQuestion]

def badQuizText : List Char := pyJsonDumps (J.arr badQuizList)

/-- A spec-conformant question: exactly four options, answer `A`. -/
def quizWitnessQuestion : J :=
  J.obj [("question".toList, J.str ['q']),
         ("options".toList,
          J.arr [J.str ['a'], J.str ['b'], J.str ['c'], J.str ['d']]),
         ("correctAnswer".toList, J.str ['A'])]

def quizWitnessList : List J :=
  [quizWitnessQuestion, quizWitnessQuestion, quizWitnessQuestion,
   quizWitnessQuestion, quizWitnessQuestion]

def quizWitnessText : List Char := pyJsonDumps (J.arr quizWitnessList)

/-- An otherwise-valid object with a single trailing comma before the
closing brace. -/
def trailingCommaText : List Char :=
  ['{', '"', 'a', '"', ':', ' ', '1', ',', '}']

/-- A valid object wrapped in a three-backtick markdown fence with a
language tag. -/
def fencedText : List Char :=
  ['`', '`', '`', 'j', 's', 'o', 'n', '\n',
   '{', '"', 'a', '"', ':', ' ', '1', '}', '\n', '`', '`', '`']

/-- A valid object whose straight quotes are replaced by typographic
(curly) quotes. -/
def curlyQuoteText : List Char :=
  ['{', Char.ofNat 0x201c, 'a', Char.ofNat 0x201d, ':', ' ', '1', '}']

/-! ## Basic character lemmas -/

/-- Characters with equal code points are equal. -/
theorem charEq_of_toNat_eq {c₁ c₂ : Char} (h : c₁.toNat = c₂.toNat) : c₁ = c₂ := by
  have h1 := Char.ofNat_toNat c₁
  rw [h, Char.ofNat_toNat] at h1
  exact h1.symm

/-- `Char.ofNat` at a valid code point reads back the same code point. -/
theorem toNat_ofNat_of_valid {n : Nat} (h : n.isValidChar) : (Char.ofNat n).toNat = n := by
  simp [Char.ofNat, h, Char.toNat, Char.ofNatAux, UInt32.toNat, UInt32.ofNat']

/-- Every `Char` code point avoids the surrogate range and is below
`0x110000`. -/
theorem char_toNat_valid (c : Char) :
    c.toNat < 0xd800 ∨ (0xdfff < c.toNat ∧ c.toNat < 0x110000) := by
  have h := c.valid
  simp [UInt32.isValidChar, Nat.isValidChar, Char.toNat] at h ⊢
  exact h

/-- Dropping leading whitespace does nothing when the head is not
whitespace. -/
theorem dropWhile_cons_neg {p : Char → Bool} {c : Char} {t : List Char} (h : p c = false) :
    (c :: t).dropWhile p = c :: t := by
  simp [List.dropWhile, h]

/-! ## String-escape round trip -/

/-- A hex digit emitted by `hexChar` decodes to its value. -/
theorem hexDigit?_hexChar : ∀ k, k < 16 → hexDigit? (hexChar k) = some k := by
  decide

/-- Decoding four serialized hex digits recovers the encoded value. -/
theorem decodeU_hex4 (m : Nat) (hm : m < 0x10000) (t : List Char) :
    decodeU (hex4 m ++ t) = some (m, t) := by
  simp only [hex4, List.cons_append, List.nil_append, decodeU]
  rw [hexDigit?_hexChar _ (by omega), hexDigit?_hexChar _ (by omega),
      hexDigit?_hexChar _ (by omega), hexDigit?_hexChar _ (by omega)]
  simp only [Option.some.injEq, Prod.mk.injEq]
  exact ⟨by omega, trivial⟩

/-- Decoding a serialized two-character escape (the seven shortcut
escapes). -/
theorem parseStringAux_esc_quote (fuel : Nat) (acc t : List Char) :
    parseStringAux (fuel + 1) acc ('\\' :: '"' :: t) = parseStringAux fuel ('"' :: acc) t := by
  simp [parseStringAux, decodeEscape]

theorem parseStringAux_esc_backslash (fuel : Nat) (acc t : List Char) :
    parseStringAux (fuel + 1) acc ('\\' :: '\\' :: t) =
      parseStringAux fuel ('\\' :: acc) t := by
  simp [parseStringAux, decodeEscape]

theorem parseStringAux_esc_b (fuel : Nat) (acc t : List Char) :
    parseStringAux (fuel + 1) acc ('\\' :: 'b' :: t) =
      parseStringAux fuel (Char.ofNat 8 :: acc) t := by
  simp [parseStringAux, decodeEscape]

theorem parseStringAux_esc_f (fuel : Nat) (acc t : List Char) :
    parseStringAux (fuel + 1) acc ('\\' :: 'f' :: t) =
      parseStringAux fuel (Char.ofNat 12 :: acc) t := by
  simp [parseStringAux, decodeEscape]

theorem parseStringAux_esc_n (fuel : Nat) (acc t : List Char) :
    parseStringAux (fuel + 1) acc ('\\' :: 'n' :: t) =
      parseStringAux fuel ('\n' :: acc) t := by
  simp [parseStringAux, decodeEscape]

theorem parseStringAux_esc_r (fuel : Nat) (acc t : List Char) :
    parseStringAux (fuel + 1) acc ('\\' :: 'r' :: t) =
      parseStringAux fuel ('\r' :: acc) t := by
  simp [parseStringAux, decodeEscape]

theorem parseStringAux_esc_t (fuel : Nat) (acc t : List Char) :
    parseStringAux (fuel + 1) acc ('\\' :: 't' :: t) =
      parseStringAux fuel ('\t' :: acc) t := by
  simp [parseStringAux, decodeEscape]

/-- Scanning one raw printable character. -/
theorem parseStringAux_esc_raw (c : Char) (fuel : Nat) (acc t : List Char)
    (h1 : ¬ c = '"') (h2 : ¬ c = '\\') (h8 : 0x20 ≤ c.toNat) :
    parseStringAux (fuel + 1) acc (c :: t) = parseStringAux fuel (c :: acc) t := by
  rw [parseStringAux, if_neg h1, if_neg h2, if_neg (by omega : ¬ c.toNat < 0x20)]

/-- Decoding a serialized basic-plane `\uXXXX` escape. -/
theorem decodeEscape_u (m : Nat) (t : List Char) (hm : m < 0x10000)
    (hs1 : ¬ (0xd800 ≤ m ∧ m ≤ 0xdbff)) (hs2 : ¬ (0xdc00 ≤ m ∧ m ≤ 0xdfff)) :
    decodeEscape ('u' :: (hex4 m ++ t)) = .ok (Char.ofNat m, t) := by
  rw [decodeEscape, if_pos rfl, decodeU_hex4 m hm t]
  simp [hs1, hs2]

theorem parseStringAux_esc_u (c : Char) (fuel : Nat) (acc t : List Char)
    (hm : c.toNat < 0x10000) :
    parseStringAux (fuel + 1) acc ('\\' :: 'u' :: (hex4 c.toNat ++ t)) =
      parseStringAux fuel (c :: acc) t := by
  have hval := char_toNat_valid c
  have hs1 : ¬ (0xd800 ≤ c.toNat ∧ c.toNat ≤ 0xdbff) := by omega
  have hs2 : ¬ (0xdc00 ≤ c.toNat ∧ c.toNat ≤ 0xdfff) := by omega
  rw [parseStringAux, if_neg (by decide : ¬ ('\\' : Char) = '"'), if_pos rfl,
      decodeEscape_u c.toNat t hm hs1 hs2, Char.ofNat_toNat]

/-- Decoding a serialized surrogate-pair escape. -/
theorem decodeEscape_pair (c : Char) (t : List Char)
    (hlow : 0x10000 ≤ c.toNat) (hup : c.toNat < 0x110000) :
    decodeEscape ('u' :: (hex4 (0xd800 + (c.toNat - 0x10000) / 0x400) ++
        ('\\' :: 'u' :: (hex4 (0xdc00 + (c.toNat - 0x10000) % 0x400) ++ t)))) =
      .ok (c, t) := by
  have hr1 : 0xd800 ≤ 0xd800 + (c.toNat - 0x10000) / 0x400 ∧
      0xd800 + (c.toNat - 0x10000) / 0x400 ≤ 0xdbff := by omega
  have hr2 : 0xdc00 ≤ 0xdc00 + (c.toNat - 0x10000) % 0x400 ∧
      0xdc00 + (c.toNat - 0x10000) % 0x400 ≤ 0xdfff := by omega
  have hrejoin : 65536 + (c.toNat - 65536) / 1024 * 1024 + (c.toNat - 65536) % 1024 =
      c.toNat := by omega
  rw [decodeEscape, if_pos rfl,
      decodeU_hex4 (0xd800 + (c.toNat - 0x10000) / 0x400) (by omega) _]
  simp only [hr1, and_self, reduceIte, decodeSurrogatePair,
    decodeU_hex4 (0xdc00 + (c.toNat - 0x10000) % 0x400) (by omega) t, hr2,
    Nat.add_sub_cancel_left, hrejoin, Char.ofNat_toNat]

theorem parseStringAux_esc_pair (c : Char) (fuel : Nat) (acc t : List Char)
    (hlow : 0x10000 ≤ c.toNat) (hup : c.toNat < 0x110000) :
    parseStringAux (fuel + 1) acc ('\\' :: 'u' :: (hex4 (0xd800 + (c.toNat - 0x10000) / 0x400) ++
        ('\\' :: 'u' :: (hex4 (0xdc00 + (c.toNat - 0x10000) % 0x400) ++ t)))) =
      parseStringAux fuel (c :: acc) t := by
  rw [parseStringAux, if_neg (by decide : ¬ ('\\' : Char) = '"'), if_pos rfl,
      decodeEscape_pair c t hlow hup]

/-- Decoding one serialized character: the scanner consumes exactly the
escape that `escapeChar` emitted and pushes back the original
character. -/
theorem parseStringAux_escapeChar (c : Char) (fuel : Nat) (acc t : List Char) :
    parseStringAux (fuel + 1) acc (escapeChar c ++ t) = parseStringAux fuel (c :: acc) t := by
  have hval := char_toNat_valid c
  unfold escapeChar
  split_ifs with h1 h2 h3 h4 h5 h6 h7 h8 h9
  · subst h1; exact parseStringAux_esc_quote fuel acc t
  · subst h2; exact parseStringAux_esc_backslash fuel acc t
  · have hc : c = Char.ofNat 8 := charEq_of_toNat_eq (by rw [h3]; decide)
    rw [show ('\\' :: 'b' :: []) ++ t = '\\' :: 'b' :: t from rfl,
        parseStringAux_esc_b fuel acc t, hc]
  · have hc : c = Char.ofNat 12 := charEq_of_toNat_eq (by rw [h4]; decide)
    rw [show ('\\' :: 'f' :: []) ++ t = '\\' :: 'f' :: t from rfl,
        parseStringAux_esc_f fuel acc t, hc]
  · subst h5; exact parseStringAux_esc_n fuel acc t
  · subst h6; exact parseStringAux_esc_r fuel acc t
  · subst h7; exact parseStringAux_esc_t fuel acc t
  · rw [show [c] ++ t = c :: t from rfl]
    exact parseStringAux_esc_raw c fuel acc t h1 h2 (by omega)
  · rw [show ('\\' :: 'u' :: hex4 c.toNat) ++ t = '\\' :: 'u' :: (hex4 c.toNat ++ t)
        from by simp]
    exact parseStringAux_esc_u c fuel acc t h9
  · have hup : c.toNat < 0x110000 := by
      rcases hval with h | h
      · omega
      · exact h.2
    have hlow : 0x10000 ≤ c.toNat := by omega
    rw [show (('\\' :: 'u' :: hex4 (0xd800 + (c.toNat - 0x10000) / 0x400)) ++
          ('\\' :: 'u' :: hex4 (0xdc00 + (c.toNat - 0x10000) % 0x400))) ++ t =
        '\\' :: 'u' :: (hex4 (0xd800 + (c.toNat - 0x10000) / 0x400) ++
          ('\\' :: 'u' :: (hex4 (0xdc00 + (c.toNat - 0x10000) % 0x400) ++ t))) from by simp]
    exact parseStringAux_esc_pair c fuel acc t hlow hup

/-- Scanning a serialized string body consumes it, pushes the source
characters, and stops at the closing quote. -/
theorem parseStringAux_escStr (s : List Char) :
    ∀ fuel acc t, s.length < fuel →
    parseStringAux fuel acc (escStr s ++ '"' :: t) = .ok (acc.reverse ++ s, t) := by
  induction s with
  | nil =>
    intro fuel acc t hf
    match fuel, hf with
    | fuel + 1, _ => simp [escStr, parseStringAux]
  | cons c s' ih =>
    intro fuel acc t hf
    match fuel, hf with
    | fuel + 1, hf =>
      have : escStr (c :: s') = escapeChar c ++ escStr s' := by
        simp [escStr]
      rw [this, List.append_assoc, parseStringAux_escapeChar,
          ih fuel (c :: acc) t (by simpa using Nat.lt_of_succ_lt_succ hf)]
      simp

/-- Every escape is at least one character long. -/
theorem escapeChar_length_pos (c : Char) : 1 ≤ (escapeChar c).length := by
  unfold escapeChar
  split_ifs <;> simp

/-- A serialized string body is at least as long as its source. -/
theorem escStr_length_ge (s : List Char) : s.length ≤ (escStr s).length := by
  induction s with
  | nil => simp [escStr]
  | cons c s' ih =>
    have : escStr (c :: s') = escapeChar c ++ escStr s' := by simp [escStr]
    rw [this]
    have := escapeChar_length_pos c
    simp only [List.length_append, List.length_cons]
    omega

/-- `parseString` on a serialized string body (with its own budget). -/
theorem parseString_escStr (s t : List Char) :
    parseString (escStr s ++ '"' :: t) = .ok (s, t) := by
  have h := escStr_length_ge s
  have hlt : s.length < (escStr s ++ '"' :: t).length + 1 := by
    simp only [List.length_append, List.length_cons]
    omega
  have h2 := parseStringAux_escStr s ((escStr s ++ '"' :: t).length + 1) [] t hlt
  simpa [parseString] using h2

/-! ## Number round trip -/

/-- `natDigitsAux` does not depend on the budget once it exceeds the
number. -/
theorem natDigitsAux_fuel : ∀ fuel fuel' n, n < fuel → n < fuel' →
    natDigitsAux fuel n = natDigitsAux fuel' n := by
  intro fuel
  induction fuel with
  | zero => intro fuel' n h; omega
  | succ f ih =>
    intro fuel' n h h'
    match fuel', h' with
    | f' + 1, h' =>
      by_cases h10 : n < 10
      · simp [natDigitsAux, h10]
      · simp only [natDigitsAux, h10, if_false]
        rw [ih f' (n / 10) (by omega) (by omega)]

/-- `natDigits` at a one-digit number. -/
theorem natDigits_small {n : Nat} (h : n < 10) : natDigits n = [Char.ofNat (48 + n)] := by
  simp [natDigits, natDigitsAux, h]

/-- One unfolding of `natDigitsAux` above ten. -/
theorem natDigitsAux_step (fuel n : Nat) (h : ¬ n < 10) :
    natDigitsAux (fuel + 1) n = natDigitsAux fuel (n / 10) ++ [Char.ofNat (48 + n % 10)] := by
  simp [natDigitsAux, h]

/-- `natDigits` peels its last digit. -/
theorem natDigits_step {n : Nat} (h : ¬ n < 10) :
    natDigits n = natDigits (n / 10) ++ [Char.ofNat (48 + n % 10)] := by
  show natDigitsAux (n + 1) n = natDigitsAux (n / 10 + 1) (n / 10) ++ _
  rw [natDigitsAux_step n n h]
  rw [natDigitsAux_fuel n (n / 10 + 1) (n / 10) (by omega) (by omega)]

/-- A digit character emitted by `natDigits` satisfies `Char.isDigit`. -/
theorem ofNat_digit_isDigit : ∀ m, m < 10 → (Char.ofNat (48 + m)).isDigit = true := by
  decide

/-- The code point of a digit character emitted by `natDigits`. -/
theorem ofNat_digit_toNat (m : Nat) (h : m < 10) : (Char.ofNat (48 + m)).toNat = 48 + m :=
  toNat_ofNat_of_valid (Or.inl (by omega))

/-- Every character of `natDigits n` is a digit, and the list is a
nonempty digit string without a spurious leading zero. -/
theorem natDigits_spec (n : Nat) :
    (∀ c ∈ natDigits n, c.isDigit = true) ∧
    (∃ c cs, natDigits n = c :: cs ∧ c.isDigit = true ∧ (n ≠ 0 → ¬ c = '0')) := by
  induction n using Nat.strong_induction_on with
  | _ n ih =>
    by_cases h : n < 10
    · rw [natDigits_small h]
      refine ⟨by simpa using ofNat_digit_isDigit n h, Char.ofNat (48 + n), [], rfl,
        ofNat_digit_isDigit n h, ?_⟩
      intro hn heq
      have : (Char.ofNat (48 + n)).toNat = ('0' : Char).toNat := by rw [heq]
      rw [ofNat_digit_toNat n h] at this
      have : n = 0 := by
        have h0 : ('0' : Char).toNat = 48 := by decide
        omega
      exact hn this
    · rw [natDigits_step h]
      obtain ⟨hall, c, cs, heq, hdig, hz⟩ := ih (n / 10) (by omega)
      constructor
      · intro d hd
        rcases List.mem_append.mp hd with hd | hd
        · exact hall d hd
        · have : d = Char.ofNat (48 + n % 10) := by simpa using hd
          subst this
          exact ofNat_digit_isDigit _ (by omega)
      · exact ⟨c, cs ++ [Char.ofNat (48 + n % 10)], by rw [heq]; simp, hdig,
          fun _ => hz (by omega)⟩

/-- The digit loop over a serialized digit string followed by a
non-digit boundary accumulates exactly the folded value. -/
theorem digitsToNat_append (ds : List Char) (hds : ∀ c ∈ ds, c.isDigit = true) :
    ∀ acc rest, (∀ c cs, rest = c :: cs → c.isDigit = false) →
    digitsToNat acc (ds ++ rest) =
      (ds.foldl (fun a c => a * 10 + (c.toNat - 48)) acc, rest) := by
  induction ds with
  | nil =>
    intro acc rest hrest
    match rest with
    | [] => simp [digitsToNat]
    | c :: cs => simp [digitsToNat, hrest c cs rfl]
  | cons d ds ih =>
    intro acc rest hrest
    have hd : d.isDigit = true := hds d (by simp)
    simp only [List.cons_append, digitsToNat, hd, if_true, List.foldl_cons]
    exact ih (fun c hc => hds c (by simp [hc])) _ rest hrest

/-- Folding the digits of `n` evaluates to `n` (with the accumulator
scaled by the digit count). -/
theorem natDigits_foldl (n : Nat) : ∀ acc,
    (natDigits n).foldl (fun a c => a * 10 + (c.toNat - 48)) acc =
      acc * 10 ^ (natDigits n).length + n := by
  induction n using Nat.strong_induction_on with
  | _ n ih =>
    intro acc
    by_cases h : n < 10
    · rw [natDigits_small h]
      simp only [List.foldl_cons, List.foldl_nil, List.length_cons, List.length_nil,
        ofNat_digit_toNat n h, zero_add, pow_one]
      omega
    · rw [natDigits_step h]
      rw [List.foldl_append, ih (n / 10) (by omega) acc]
      simp only [List.foldl_cons, List.foldl_nil, List.length_append, List.length_cons,
        List.length_nil]
      rw [ofNat_digit_toNat _ (by omega)]
      have hpow : 10 ^ ((natDigits (n / 10)).length + (0 + 1)) =
          10 ^ (natDigits (n / 10)).length * 10 := by ring
      rw [hpow]
      have := Nat.div_add_mod n 10
      generalize (10 : Nat) ^ (natDigits (n / 10)).length = A
      have h48 : 48 + n % 10 - 48 = n % 10 := by omega
      rw [h48]
      ring_nf
      omega

/-- `parseUInt` reads back exactly the digits `natDigits` emitted. -/
theorem parseUInt_natDigits (n : Nat) (rest : List Char)
    (hrest : ∀ c cs, rest = c :: cs → c.isDigit = false) :
    parseUInt (natDigits n ++ rest) = some (n, rest) := by
  by_cases h0 : n = 0
  · subst h0
    rw [natDigits_small (by omega)]
    simp only [List.cons_append, List.nil_append]
    rw [show Char.ofNat (48 + 0) = '0' from by decide]
    simp [parseUInt]
  · obtain ⟨hall, c, cs, heq, hdig, hz⟩ := natDigits_spec n
    rw [heq]
    simp only [List.cons_append, parseUInt, hz h0, if_false, hdig, if_true]
    have htail : ∀ d ∈ cs, d.isDigit = true := by
      intro d hd
      exact hall d (by rw [heq]; simp [hd])
    rw [digitsToNat_append cs htail _ rest hrest]
    have hfold := natDigits_foldl n (0 : Nat)
    rw [heq] at hfold
    simp only [List.foldl_cons] at hfold
    have hzmul : (0 : Nat) * 10 + (c.toNat - 48) = c.toNat - 48 := by omega
    rw [hzmul] at hfold
    rw [hfold]
    simp

/-- A boundary character stops `NUMBER_RE` from extending the match. -/
theorem isFloatCont_of_numBoundary {rest : List Char} (h : numBoundary rest = true) :
    isFloatCont rest = false := by
  match rest with
  | [] => rfl
  | c :: cs =>
    simp only [numBoundary, Bool.not_eq_true', Bool.or_eq_false_iff] at h
    obtain ⟨⟨⟨hd, hdot⟩, he⟩, hE⟩ := h
    simp only [isFloatCont]
    rw [if_neg (by simp [decide_eq_true_eq] at hdot ⊢; exact hdot)]
    rw [if_neg (by simp [decide_eq_true_eq] at he hE ⊢; exact ⟨he, hE⟩)]

/-- A boundary character is not a digit. -/
theorem numBoundary_head_not_digit {rest : List Char} (h : numBoundary rest = true) :
    ∀ c cs, rest = c :: cs → c.isDigit = false := by
  intro c cs hrest
  subst hrest
  simp only [numBoundary, Bool.not_eq_true', Bool.or_eq_false_iff] at h
  exact h.1.1.1

/-- `parseNumber` reads back exactly what `intChars` (the model of
`str(n)` inside `json.dumps`) emitted. -/
theorem parseNumber_intChars (k : Int) (rest : List Char) (hb : numBoundary rest = true) :
    parseNumber (intChars k ++ rest) = .ok (.num k, rest) := by
  have hrest := numBoundary_head_not_digit hb
  by_cases hneg : k < 0
  · simp only [intChars, hneg, if_true, List.cons_append, parseNumber, if_pos rfl,
      parseUInt_natDigits (-k).toNat rest hrest, isFloatCont_of_numBoundary hb,
      Bool.false_eq_true, if_false]
    have hk : -(((-k).toNat : Int)) = k := by omega
    rw [hk]
  · obtain ⟨hall, c, cs, heq, hdig, hz⟩ := natDigits_spec k.toNat
    have hcm : ¬ c = '-' := by
      intro hcontr
      subst hcontr
      simp [Char.isDigit] at hdig
    simp only [intChars, hneg, if_false]
    rw [heq, List.cons_append, parseNumber, if_neg hcm, ← List.cons_append, ← heq,
        parseUInt_natDigits k.toNat rest hrest]
    simp only [isFloatCont_of_numBoundary hb, Bool.false_eq_true, if_false]
    have hk : ((k.toNat : Int)) = k := by omega
    rw [hk]

/-! ## Serializer structure -/

/-- Code-point bounds of a digit character. -/
theorem isDigit_toNat {c : Char} (h : c.isDigit = true) : 48 ≤ c.toNat ∧ c.toNat ≤ 57 := by
  unfold Char.isDigit at h
  simp only [Bool.and_eq_true, decide_eq_true_eq, ge_iff_le] at h
  obtain ⟨h1, h2⟩ := h
  exact ⟨UInt32.le_toNat_of_le (by decide) h1, UInt32.toNat_le_of_le (by decide) h2⟩

/-- A digit is a fine first character for a serialized value. -/
theorem dumpsHeadOK_of_isDigit {c : Char} (h : c.isDigit = true) : dumpsHeadOK c = true := by
  obtain ⟨h1, h2⟩ := isDigit_toNat h
  have e1 : ¬ c = ' ' := fun hc => by subst hc; exact absurd h1 (by decide)
  have e2 : ¬ c = '\t' := fun hc => by subst hc; exact absurd h1 (by decide)
  have e3 : ¬ c = '\n' := fun hc => by subst hc; exact absurd h1 (by decide)
  have e4 : ¬ c = '\r' := fun hc => by subst hc; exact absurd h1 (by decide)
  have e5 : ¬ c = ']' := fun hc => by subst hc; exact absurd h2 (by decide)
  have e6 : ¬ c = '}' := fun hc => by subst hc; exact absurd h2 (by decide)
  simp [dumpsHeadOK, isJsonWs, e1, e2, e3, e4, e5, e6]

/-- Every serialized value starts with a non-whitespace, non-closing
character. -/
theorem pyJsonDumps_cons (v : J) :
    ∃ c t, pyJsonDumps v = c :: t ∧ dumpsHeadOK c = true := by
  match v with
  | .null => exact ⟨'n', _, rfl, by decide⟩
  | .bool true => exact ⟨'t', _, rfl, by decide⟩
  | .bool false => exact ⟨'f', _, rfl, by decide⟩
  | .str s => exact ⟨'"', _, rfl, by decide⟩
  | .arr [] => exact ⟨'[', _, rfl, by decide⟩
  | .arr (x :: xs) => exact ⟨'[', _, rfl, by decide⟩
  | .obj [] => exact ⟨'{', _, rfl, by decide⟩
  | .obj (kv :: kvs) => exact ⟨'{', _, rfl, by decide⟩
  | .num k =>
    show ∃ c t, intChars k = c :: t ∧ dumpsHeadOK c = true
    by_cases hneg : k < 0
    · exact ⟨'-', natDigits (-k).toNat, by simp [intChars, hneg], by decide⟩
    · obtain ⟨_, c, cs, heq, hdig, _⟩ := natDigits_spec k.toNat
      exact ⟨c, cs, by simp [intChars, hneg, heq], dumpsHeadOK_of_isDigit hdig⟩

/-- A serialized object is braces around its members. -/
theorem pyJsonDumps_obj_shape (kvs : List (List Char × J)) :
    ∃ mid, pyJsonDumps (J.obj kvs) = '{' :: mid ++ ['}'] := by
  match kvs with
  | [] => exact ⟨[], rfl⟩
  | kv :: tl => exact ⟨serPair kv ++ serPairs tl, by simp [pyJsonDumps]⟩

/-- A serialized array is brackets around its elements. -/
theorem pyJsonDumps_arr_shape (l : List J) :
    ∃ mid, pyJsonDumps (J.arr l) = '[' :: mid ++ [']'] := by
  match l with
  | [] => exact ⟨[], rfl⟩
  | x :: xs => exact ⟨pyJsonDumps x ++ serItems xs, by simp [pyJsonDumps]⟩

/-! ## Serialized output is printable ASCII -/

/-- Hex digits are printable. -/
theorem hexChar_printable : ∀ k, k < 16 → isPrintableAscii (hexChar k) = true := by
  decide

/-- Digits are printable. -/
theorem printable_of_isDigit {c : Char} (h : c.isDigit = true) :
    isPrintableAscii c = true := by
  obtain ⟨h1, h2⟩ := isDigit_toNat h
  simp only [isPrintableAscii, Bool.and_eq_true, decide_eq_true_eq]
  omega

/-- Every character of a rendered hex quadruple is printable ASCII. -/
theorem hex4_printable (k : Nat) : ∀ d ∈ hex4 k, isPrintableAscii d = true := by
  intro d hd
  simp only [hex4, List.mem_cons, List.not_mem_nil, or_false] at hd
  rcases hd with rfl | rfl | rfl | rfl <;> exact hexChar_printable _ (by omega)

/-- Every character of an escape is printable ASCII. -/
theorem escapeChar_printable (c : Char) : ∀ d ∈ escapeChar c, isPrintableAscii d = true := by
  intro d hd
  unfold escapeChar at hd
  split_ifs at hd with h1 h2 h3 h4 h5 h6 h7 h8 h9
  · simp only [List.mem_cons, List.not_mem_nil, or_false] at hd
    rcases hd with rfl | rfl <;> decide
  · simp only [List.mem_cons, List.not_mem_nil, or_false] at hd
    rcases hd with rfl | rfl <;> decide
  · simp only [List.mem_cons, List.not_mem_nil, or_false] at hd
    rcases hd with rfl | rfl <;> decide
  · simp only [List.mem_cons, List.not_mem_nil, or_false] at hd
    rcases hd with rfl | rfl <;> decide
  · simp only [List.mem_cons, List.not_mem_nil, or_false] at hd
    rcases hd with rfl | rfl <;> decide
  · simp only [List.mem_cons, List.not_mem_nil, or_false] at hd
    rcases hd with rfl | rfl <;> decide
  · simp only [List.mem_cons, List.not_mem_nil, or_false] at hd
    rcases hd with rfl | rfl <;> decide
  · have : d = c := by simpa using hd
    subst this
    simp only [isPrintableAscii, Bool.and_eq_true, decide_eq_true_eq]
    omega
  · simp only [List.mem_cons] at hd
    rcases hd with rfl | rfl | h
    · decide
    · decide
    · exact hex4_printable _ d h
  · simp only [List.mem_append, List.mem_cons] at hd
    rcases hd with (rfl | rfl | h) | (rfl | rfl | h)
    · decide
    · decide
    · exact hex4_printable _ d h
    · decide
    · decide
    · exact hex4_printable _ d h

/-- Every character of a serialized string body is printable ASCII. -/
theorem escStr_printable (s : List Char) : ∀ d ∈ escStr s, isPrintableAscii d = true := by
  intro d hd
  simp only [escStr, List.mem_flatMap] at hd
  obtain ⟨c, _, hdc⟩ := hd
  exact escapeChar_printable c d hdc

/-- Every character of a serialized number is printable ASCII. -/
theorem intChars_printable (k : Int) : ∀ d ∈ intChars k, isPrintableAscii d = true := by
  intro d hd
  unfold intChars at hd
  split_ifs at hd with hneg
  · rcases List.mem_cons.mp hd with h | h
    · subst h; decide
    · exact printable_of_isDigit ((natDigits_spec _).1 d h)
  · exact printable_of_isDigit ((natDigits_spec _).1 d hd)

/-- Sizes are positive. -/
theorem jsize_pos : ∀ v : J, 1 ≤ jsize v := by
  intro v
  match v with
  | .null | .bool _ | .num _ | .str _ => simp [jsize]
  | .arr l =>
    have h : jsize (J.arr l) = 1 + jsizeList l := by simp [jsize]
    omega
  | .obj kvs =>
    have h : jsize (J.obj kvs) = 1 + jsizePairs kvs := by simp [jsize]
    omega

/-- An element weighs no more than its list. -/
theorem jsize_mem_list {x : J} : ∀ {l : List J}, x ∈ l → jsize x ≤ jsizeList l := by
  intro l hx
  induction l with
  | nil => simp at hx
  | cons y ys ih =>
    rcases List.mem_cons.mp hx with rfl | hx
    · simp [jsizeList]; omega
    · have := ih hx
      simp [jsizeList]
      omega

/-- A member's value weighs no more than its pair list. -/
theorem jsize_mem_pairs {kv : List Char × J} : ∀ {kvs : List (List Char × J)},
    kv ∈ kvs → jsize kv.2 ≤ jsizePairs kvs := by
  intro kvs hkv
  induction kvs with
  | nil => simp at hkv
  | cons p ps ih =>
    rcases List.mem_cons.mp hkv with rfl | hkv
    · simp [jsizePairs]; omega
    · have := ih hkv
      simp [jsizePairs]
      omega

/-- Every character of a serialized string literal is printable ASCII. -/
theorem serStr_printable (s : List Char) : ∀ d ∈ serStr s, isPrintableAscii d = true := by
  intro d hd
  simp only [serStr, List.mem_cons, List.mem_append, List.not_mem_nil, or_false] at hd
  rcases hd with (rfl | h) | rfl
  · decide
  · exact escStr_printable s d h
  · decide

/-- Every character `json.dumps` emits is printable ASCII (so the
coercer's quote/space normalization and control-character stripping are
the identity on serialized output). -/
theorem pyJsonDumps_printable :
    ∀ N v, jsize v ≤ N → ∀ d ∈ pyJsonDumps v, isPrintableAscii d = true := by
  intro N
  induction N with
  | zero =>
    intro v hv
    have := jsize_pos v
    omega
  | succ N ih =>
    have hitems : ∀ xs : List J, (∀ x ∈ xs, jsize x ≤ N) →
        ∀ d ∈ serItems xs, isPrintableAscii d = true := by
      intro xs
      induction xs with
      | nil => intro _ d hd; simp [serItems] at hd
      | cons x xs ihx =>
        intro hmem d hd
        simp only [serItems, List.mem_cons, List.mem_append] at hd
        rcases hd with (rfl | rfl | h) | h
        · decide
        · decide
        · exact ih x (hmem x (by simp)) d h
        · exact ihx (fun y hy => hmem y (by simp [hy])) d h
    have hpairs : ∀ kvs : List (List Char × J), (∀ kv ∈ kvs, jsize kv.2 ≤ N) →
        ∀ d ∈ serPairs kvs, isPrintableAscii d = true := by
      intro kvs
      induction kvs with
      | nil => intro _ d hd; simp [serPairs] at hd
      | cons kv kvs ihkv =>
        intro hmem d hd
        simp only [serPairs, List.mem_cons, List.mem_append] at hd
        rcases hd with (rfl | rfl | hp) | h
        · decide
        · decide
        · match kv, hp with
          | (k, v2), hp =>
            simp only [serPair, List.mem_cons, List.mem_append] at hp
            rcases hp with h | rfl | rfl | h
            · exact serStr_printable k d h
            · decide
            · decide
            · exact ih v2 (hmem (k, v2) (by simp)) d h
        · exact ihkv (fun p hp2 => hmem p (by simp [hp2])) d h
    intro v hv d hd
    match v with
    | .null =>
      simp only [pyJsonDumps, List.mem_cons, List.not_mem_nil, or_false] at hd
      rcases hd with rfl | rfl | rfl | rfl <;> decide
    | .bool true =>
      simp only [pyJsonDumps, List.mem_cons, List.not_mem_nil, or_false] at hd
      rcases hd with rfl | rfl | rfl | rfl <;> decide
    | .bool false =>
      simp only [pyJsonDumps, List.mem_cons, List.not_mem_nil, or_false] at hd
      rcases hd with rfl | rfl | rfl | rfl | rfl <;> decide
    | .num k => exact intChars_printable k d hd
    | .str s => exact serStr_printable s d hd
    | .arr [] =>
      simp only [pyJsonDumps, List.mem_cons, List.not_mem_nil, or_false] at hd
      rcases hd with rfl | rfl <;> decide
    | .arr (x :: xs) =>
      simp only [pyJsonDumps, List.mem_cons, List.mem_append, List.not_mem_nil,
        or_false] at hd
      have hsz : jsize (J.arr (x :: xs)) ≤ N + 1 := hv
      simp only [jsize, jsizeList] at hsz
      rcases hd with (rfl | h | h) | rfl
      · decide
      · exact ih x (by omega) d h
      · refine hitems xs ?_ d h
        intro y hy
        have := jsize_mem_list hy
        omega
      · decide
    | .obj [] =>
      simp only [pyJsonDumps, List.mem_cons, List.not_mem_nil, or_false] at hd
      rcases hd with rfl | rfl <;> decide
    | .obj (kv :: kvs) =>
      simp only [pyJsonDumps, List.mem_cons, List.mem_append, List.not_mem_nil,
        or_false] at hd
      have hsz : jsize (J.obj (kv :: kvs)) ≤ N + 1 := hv
      simp only [jsize, jsizePairs] at hsz
      rcases hd with (rfl | hp | h) | rfl
      · decide
      · match kv, hp, hsz with
        | (k, v2), hp, hsz =>
          simp only [serPair, List.mem_cons, List.mem_append] at hp
          rcases hp with h | rfl | rfl | h
          · exact serStr_printable k d h
          · decide
          · decide
          · exact ih v2 (by simp at hsz; omega) d h
      · refine hpairs kvs ?_ d h
        intro p hp
        have := jsize_mem_pairs hp
        omega
      · decide

/-! ## Decoder round trip: leaf values -/

/-- A digit never collides with the scanner's dispatch characters. -/
theorem isDigit_ne_special {c : Char} (h : c.isDigit = true) :
    ¬ c = '"' ∧ ¬ c = '{' ∧ ¬ c = '[' ∧ ¬ c = 'n' ∧ ¬ c = 't' ∧ ¬ c = 'f' ∧
      ¬ c = 'N' ∧ ¬ c = 'I' ∧ ¬ c = '-' := by
  obtain ⟨h1, h2⟩ := isDigit_toNat h
  refine ⟨?_, ?_, ?_, ?_, ?_, ?_, ?_, ?_, ?_⟩ <;>
    first
      | exact fun hc => by subst hc; exact absurd h1 (by decide)
      | exact fun hc => by subst hc; exact absurd h2 (by decide)

/-- Scanning a serialized `null`. -/
theorem parseVal_dumps_null (fuel : Nat) (rest : List Char) (hf : 1 ≤ fuel) :
    parseVal fuel (pyJsonDumps J.null ++ rest) = .ok (J.null, rest) := by
  match fuel, hf with
  | fuel + 1, _ =>
    rw [show pyJsonDumps J.null ++ rest = 'n' :: 'u' :: 'l' :: 'l' :: rest from rfl,
        parseVal]
    simp

/-- Scanning a serialized `true`. -/
theorem parseVal_dumps_true (fuel : Nat) (rest : List Char) (hf : 1 ≤ fuel) :
    parseVal fuel (pyJsonDumps (J.bool true) ++ rest) = .ok (J.bool true, rest) := by
  match fuel, hf with
  | fuel + 1, _ =>
    rw [show pyJsonDumps (J.bool true) ++ rest = 't' :: 'r' :: 'u' :: 'e' :: rest from rfl,
        parseVal]
    simp

/-- Scanning a serialized `false`. -/
theorem parseVal_dumps_false (fuel : Nat) (rest : List Char) (hf : 1 ≤ fuel) :
    parseVal fuel (pyJsonDumps (J.bool false) ++ rest) = .ok (J.bool false, rest) := by
  match fuel, hf with
  | fuel + 1, _ =>
    rw [show pyJsonDumps (J.bool false) ++ rest =
          'f' :: 'a' :: 'l' :: 's' :: 'e' :: rest from rfl, parseVal]
    simp

/-- Scanning a serialized string. -/
theorem parseVal_dumps_str (fuel : Nat) (s rest : List Char) (hf : 1 ≤ fuel) :
    parseVal fuel (pyJsonDumps (J.str s) ++ rest) = .ok (J.str s, rest) := by
  match fuel, hf with
  | fuel + 1, _ =>
    have hshape : pyJsonDumps (J.str s) ++ rest = '"' :: (escStr s ++ '"' :: rest) := by
      simp [pyJsonDumps, serStr]
    rw [hshape, parseVal]
    simp [parseString_escStr s rest]

/-- Scanning a serialized integer. -/
theorem parseVal_dumps_num (fuel : Nat) (k : Int) (rest : List Char) (hf : 1 ≤ fuel)
    (hb : numBoundary rest = true) :
    parseVal fuel (pyJsonDumps (J.num k) ++ rest) = .ok (J.num k, rest) := by
  match fuel, hf with
  | fuel + 1, _ =>
    show parseVal (fuel + 1) (intChars k ++ rest) = .ok (J.num k, rest)
    by_cases hneg : k < 0
    · obtain ⟨_, c, cs, heq, hdig, _⟩ := natDigits_spec (-k).toNat
      have hsh : intChars k ++ rest = '-' :: (natDigits (-k).toNat ++ rest) := by
        simp [intChars, hneg]
      have htk : (natDigits (-k).toNat ++ rest).take 8 ≠
          ['I', 'n', 'f', 'i', 'n', 'i', 't', 'y'] := by
        rw [heq]
        intro hcontr
        have hhd : c = 'I' := by
          have := congrArg (fun l => l.head?) hcontr
          simpa using this
        exact (isDigit_ne_special hdig).2.2.2.2.2.2.2.1 hhd
      rw [hsh, parseVal, if_neg (by decide), if_neg (by decide), if_neg (by decide),
          if_neg (by decide), if_neg (by decide), if_neg (by decide), if_neg (by decide),
          if_neg (by decide), if_pos rfl, if_neg htk]
      have : parseNumber ('-' :: (natDigits (-k).toNat ++ rest)) =
          parseNumber (intChars k ++ rest) := by rw [hsh]
      rw [this, parseNumber_intChars k rest hb]
    · obtain ⟨_, c, cs, heq, hdig, _⟩ := natDigits_spec k.toNat
      obtain ⟨n1, n2, n3, n4, n5, n6, n7, n8, n9⟩ := isDigit_ne_special hdig
      have hsh : intChars k ++ rest = c :: (cs ++ rest) := by
        simp [intChars, hneg, heq]
      rw [hsh, parseVal, if_neg n1, if_neg n2, if_neg n3, if_neg n4, if_neg n5, if_neg n6,
          if_neg n7, if_neg n8, if_neg n9]
      have : parseNumber (c :: (cs ++ rest)) = parseNumber (intChars k ++ rest) := by
        rw [hsh]
      rw [this, parseNumber_intChars k rest hb]

/-! ## Decoder round trip: containers -/

/-- What follows a serialized array element starts with `,` or `]` —
a safe boundary for a serialized number. -/
theorem numBoundary_serItems (xs : List J) (rest : List Char) :
    numBoundary (serItems xs ++ ']' :: rest) = true := by
  match xs with
  | [] => simp [serItems, numBoundary]
  | y :: ys =>
    rw [show serItems (y :: ys) ++ ']' :: rest =
        ',' :: (' ' :: pyJsonDumps y ++ serItems ys ++ ']' :: rest) from by
      simp [serItems]]
    simp [numBoundary]

/-- What follows a serialized member value starts with `,` or `}`. -/
theorem numBoundary_serPairs (kvs : List (List Char × J)) (rest : List Char) :
    numBoundary (serPairs kvs ++ '}' :: rest) = true := by
  match kvs with
  | [] => simp [serPairs, numBoundary]
  | kv :: tl =>
    rw [show serPairs (kv :: tl) ++ '}' :: rest =
        ',' :: (' ' :: serPair kv ++ serPairs tl ++ '}' :: rest) from by
      simp [serPairs]]
    simp [numBoundary]

/-- Leading whitespace skipping leaves serialized output alone. -/
theorem dropWhile_ws_dumps (v : J) (rest : List Char) :
    (pyJsonDumps v ++ rest).dropWhile isJsonWs = pyJsonDumps v ++ rest := by
  obtain ⟨c, t, heq, hok⟩ := pyJsonDumps_cons v
  rw [heq, List.cons_append]
  refine dropWhile_cons_neg ?_
  simp only [dumpsHeadOK, Bool.and_eq_true, Bool.not_eq_true'] at hok
  exact hok.1.1

/-- The element loop consumes a serialized comma-separated element list
up to the closing bracket. -/
theorem parseElems_dumps (N : Nat)
    (ih : ∀ v, jsize v ≤ N → ∀ fuel rest, 4 * (pyJsonDumps v).length ≤ fuel →
      numBoundary rest = true → parseVal fuel (pyJsonDumps v ++ rest) = .ok (v, rest)) :
    ∀ xs x, jsize x ≤ N → (∀ y ∈ xs, jsize y ≤ N) →
    ∀ fuel rest,
      4 * (pyJsonDumps x).length + 4 * (serItems xs).length + 4 ≤ fuel →
      parseElems fuel (pyJsonDumps x ++ (serItems xs ++ ']' :: rest)) =
        .ok (x :: xs, rest) := by
  intro xs
  induction xs with
  | nil =>
    intro x hx _ fuel rest hf
    match fuel, (by omega : 1 ≤ fuel) with
    | fuel + 1, _ =>
      rw [show serItems [] ++ ']' :: rest = ']' :: rest from by simp [serItems]]
      have hfx : 4 * (pyJsonDumps x).length ≤ fuel := by omega
      rw [parseElems, ih x hx fuel (']' :: rest) hfx (by simp [numBoundary])]
      simp [List.dropWhile, isJsonWs]
  | cons y ys ihy =>
    intro x hx hmem fuel rest hf
    have hlitems : (serItems (y :: ys)).length =
        2 + (pyJsonDumps y).length + (serItems ys).length := by
      simp [serItems]
      omega
    match fuel, (by omega : 1 ≤ fuel) with
    | fuel + 1, _ =>
      rw [show serItems (y :: ys) ++ ']' :: rest =
          ',' :: ' ' :: (pyJsonDumps y ++ (serItems ys ++ ']' :: rest)) from by
        simp [serItems]]
      have hfx : 4 * (pyJsonDumps x).length ≤ fuel := by omega
      rw [parseElems,
          ih x hx fuel (',' :: ' ' :: (pyJsonDumps y ++ (serItems ys ++ ']' :: rest))) hfx
            (by simp [numBoundary])]
      have hdw1 : (',' :: ' ' :: (pyJsonDumps y ++ (serItems ys ++ ']' :: rest))).dropWhile
          isJsonWs = ',' :: ' ' :: (pyJsonDumps y ++ (serItems ys ++ ']' :: rest)) :=
        dropWhile_cons_neg (by decide)
      have hdw2 : (' ' :: (pyJsonDumps y ++ (serItems ys ++ ']' :: rest))).dropWhile
          isJsonWs = pyJsonDumps y ++ (serItems ys ++ ']' :: rest) := by
        rw [List.dropWhile_cons_of_pos (by decide)]
        exact dropWhile_ws_dumps y _
      have hrec := ihy y (hmem y (by simp)) (fun z hz => hmem z (by simp [hz])) fuel rest
        (by omega)
      simp only [hdw1, hdw2, hrec]

/-- The member loop consumes a serialized comma-separated member list
up to the closing brace. -/
theorem parseMembers_dumps (N : Nat)
    (ih : ∀ v, jsize v ≤ N → ∀ fuel rest, 4 * (pyJsonDumps v).length ≤ fuel →
      numBoundary rest = true → parseVal fuel (pyJsonDumps v ++ rest) = .ok (v, rest)) :
    ∀ kvs k v, jsize v ≤ N → (∀ kv ∈ kvs, jsize kv.2 ≤ N) →
    ∀ fuel rest,
      4 * (escStr k).length + 4 * (pyJsonDumps v).length + 4 * (serPairs kvs).length + 8 ≤
        fuel →
      parseMembers fuel
        (escStr k ++ '"' :: ':' :: ' ' :: (pyJsonDumps v ++ (serPairs kvs ++ '}' :: rest))) =
        .ok ((k, v) :: kvs, rest) := by
  intro kvs
  induction kvs with
  | nil =>
    intro k v hv _ fuel rest hf
    match fuel, (by omega : 1 ≤ fuel) with
    | fuel + 1, _ =>
      rw [parseMembers,
          parseString_escStr k (':' :: ' ' :: (pyJsonDumps v ++ (serPairs [] ++ '}' :: rest)))]
      have hdw1 : ((':' :: ' ' :: (pyJsonDumps v ++ (serPairs [] ++ '}' :: rest))).dropWhile
          isJsonWs) = ':' :: ' ' :: (pyJsonDumps v ++ (serPairs [] ++ '}' :: rest)) :=
        dropWhile_cons_neg (by decide)
      have hdw2 : ((' ' :: (pyJsonDumps v ++ (serPairs [] ++ '}' :: rest))).dropWhile
          isJsonWs) = pyJsonDumps v ++ (serPairs [] ++ '}' :: rest) := by
        rw [List.dropWhile_cons_of_pos (by decide)]
        exact dropWhile_ws_dumps v _
      have hval := ih v hv fuel (serPairs [] ++ '}' :: rest) (by omega)
        (numBoundary_serPairs [] rest)
      simp only [hdw1, hdw2, hval]
      rw [show serPairs ([] : List (List Char × J)) ++ '}' :: rest = '}' :: rest from by
        simp [serPairs]]
      simp [List.dropWhile, isJsonWs]
  | cons kv tl ihtl =>
    intro k v hv hmem fuel rest hf
    obtain ⟨k2, v2⟩ := kv
    have hlpairs : (serPairs ((k2, v2) :: tl)).length =
        2 + (serPair (k2, v2)).length + (serPairs tl).length := by
      simp [serPairs]
      omega
    have hlpair : (serPair (k2, v2)).length =
        2 + (escStr k2).length + 2 + (pyJsonDumps v2).length := by
      simp [serPair, serStr]
      omega
    match fuel, (by omega : 1 ≤ fuel) with
    | fuel + 1, _ =>
      rw [parseMembers,
          parseString_escStr k
            (':' :: ' ' :: (pyJsonDumps v ++ (serPairs ((k2, v2) :: tl) ++ '}' :: rest)))]
      have hdw1 : ((':' :: ' ' :: (pyJsonDumps v ++ (serPairs ((k2, v2) :: tl) ++ '}' :: rest))).dropWhile
          isJsonWs) = ':' :: ' ' :: (pyJsonDumps v ++ (serPairs ((k2, v2) :: tl) ++ '}' :: rest)) :=
        dropWhile_cons_neg (by decide)
      have hdw2 : ((' ' :: (pyJsonDumps v ++ (serPairs ((k2, v2) :: tl) ++ '}' :: rest))).dropWhile
          isJsonWs) = pyJsonDumps v ++ (serPairs ((k2, v2) :: tl) ++ '}' :: rest) := by
        rw [List.dropWhile_cons_of_pos (by decide)]
        exact dropWhile_ws_dumps v _
      have hval := ih v hv fuel (serPairs ((k2, v2) :: tl) ++ '}' :: rest) (by omega)
        (numBoundary_serPairs ((k2, v2) :: tl) rest)
      simp only [hdw1, hdw2, hval]
      rw [show serPairs ((k2, v2) :: tl) ++ '}' :: rest =
          ',' :: ' ' :: ('"' ::
            (escStr k2 ++ '"' :: ':' :: ' ' ::
              (pyJsonDumps v2 ++ (serPairs tl ++ '}' :: rest)))) from by
        simp [serPairs, serPair, serStr]]
      have hdw3 : ((',' :: ' ' :: ('"' ::
          (escStr k2 ++ '"' :: ':' :: ' ' ::
            (pyJsonDumps v2 ++ (serPairs tl ++ '}' :: rest))))).dropWhile isJsonWs) =
          ',' :: ' ' :: ('"' ::
            (escStr k2 ++ '"' :: ':' :: ' ' ::
              (pyJsonDumps v2 ++ (serPairs tl ++ '}' :: rest)))) :=
        dropWhile_cons_neg (by decide)
      have hdw4 : ((' ' :: ('"' ::
          (escStr k2 ++ '"' :: ':' :: ' ' ::
            (pyJsonDumps v2 ++ (serPairs tl ++ '}' :: rest))))).dropWhile isJsonWs) =
          '"' :: (escStr k2 ++ '"' :: ':' :: ' ' ::
            (pyJsonDumps v2 ++ (serPairs tl ++ '}' :: rest))) := by
        rw [List.dropWhile_cons_of_pos (by decide)]
        exact dropWhile_cons_neg (by decide)
      have hrec := ihtl k2 v2 (hmem (k2, v2) (by simp)) (fun p hp => hmem p (by simp [hp]))
        fuel rest (by omega)
      simp only [hdw3, hdw4, hrec]

/-- The scanner reads back every serialized value, leaving the rest of
the input intact. -/
theorem parseVal_pyJsonDumps :
    ∀ N v, jsize v ≤ N → ∀ fuel rest, 4 * (pyJsonDumps v).length ≤ fuel →
      numBoundary rest = true → parseVal fuel (pyJsonDumps v ++ rest) = .ok (v, rest) := by
  intro N
  induction N with
  | zero =>
    intro v hv
    have := jsize_pos v
    omega
  | succ N ih =>
    intro v hv fuel rest hf hb
    match v with
    | .null =>
      have hl : (pyJsonDumps J.null).length = 4 := by simp [pyJsonDumps]
      exact parseVal_dumps_null fuel rest (by omega)
    | .bool true =>
      have hl : (pyJsonDumps (J.bool true)).length = 4 := by simp [pyJsonDumps]
      exact parseVal_dumps_true fuel rest (by omega)
    | .bool false =>
      have hl : (pyJsonDumps (J.bool false)).length = 5 := by simp [pyJsonDumps]
      exact parseVal_dumps_false fuel rest (by omega)
    | .num k =>
      have hl : 1 ≤ (pyJsonDumps (J.num k)).length := by
        obtain ⟨c, t, heq, _⟩ := pyJsonDumps_cons (J.num k)
        rw [heq]
        simp
      exact parseVal_dumps_num fuel k rest (by omega) hb
    | .str s =>
      have hl : 1 ≤ (pyJsonDumps (J.str s)).length := by
        simp [pyJsonDumps, serStr]
      exact parseVal_dumps_str fuel s rest (by omega)
    | .arr [] =>
      have hl : (pyJsonDumps (J.arr [])).length = 2 := by simp [pyJsonDumps]
      match fuel, (by omega : 2 ≤ fuel) with
      | fuel + 2, _ =>
        rw [show pyJsonDumps (J.arr []) ++ rest = '[' :: ']' :: rest from by
          simp [pyJsonDumps]]
        rw [parseVal, if_neg (by decide), if_neg (by decide), if_pos rfl, parseArr]
        simp [List.dropWhile, isJsonWs]
    | .arr (x :: xs) =>
      have hsz : jsize (J.arr (x :: xs)) ≤ N + 1 := hv
      have hszl : jsize (J.arr (x :: xs)) = 1 + (1 + jsize x + jsizeList xs) := by
        simp [jsize, jsizeList]
      have hl : (pyJsonDumps (J.arr (x :: xs))).length =
          2 + (pyJsonDumps x).length + (serItems xs).length := by
        simp [pyJsonDumps]
        omega
      match fuel, (by omega : 2 ≤ fuel) with
      | fuel + 2, _ =>
        rw [show pyJsonDumps (J.arr (x :: xs)) ++ rest =
            '[' :: (pyJsonDumps x ++ (serItems xs ++ ']' :: rest)) from by
          simp [pyJsonDumps]]
        rw [parseVal, if_neg (by decide), if_neg (by decide), if_pos rfl, parseArr]
        rw [dropWhile_ws_dumps x (serItems xs ++ ']' :: rest)]
        have helems := parseElems_dumps N ih xs x (by omega)
          (fun y hy => by have := jsize_mem_list hy; omega) fuel rest (by omega)
        obtain ⟨c, t, heq, hok⟩ := pyJsonDumps_cons x
        have hcne : ¬ c = ']' := by
          simp only [dumpsHeadOK, Bool.and_eq_true, Bool.not_eq_true',
            decide_eq_true_eq] at hok
          intro hcontr
          subst hcontr
          simp at hok
        rw [heq, List.cons_append] at helems ⊢
        split
        · next r heq2 =>
          rw [List.cons.injEq] at heq2
          exact absurd heq2.1 hcne
        · next =>
          rw [helems]
    | .obj [] =>
      have hl : (pyJsonDumps (J.obj [])).length = 2 := by simp [pyJsonDumps]
      match fuel, (by omega : 2 ≤ fuel) with
      | fuel + 2, _ =>
        rw [show pyJsonDumps (J.obj []) ++ rest = '{' :: '}' :: rest from by
          simp [pyJsonDumps]]
        rw [parseVal, if_neg (by decide), if_pos rfl, parseObj]
        simp [List.dropWhile, isJsonWs]
    | .obj (kv :: kvs) =>
      obtain ⟨k2, v2⟩ := kv
      have hsz : jsize (J.obj ((k2, v2) :: kvs)) ≤ N + 1 := hv
      have hszl : jsize (J.obj ((k2, v2) :: kvs)) =
          1 + (1 + jsize v2 + jsizePairs kvs) := by
        simp [jsize, jsizePairs]
      have hl : (pyJsonDumps (J.obj ((k2, v2) :: kvs))).length =
          2 + (serPair (k2, v2)).length + (serPairs kvs).length := by
        simp [pyJsonDumps]
        omega
      have hlpair : (serPair (k2, v2)).length =
          2 + (escStr k2).length + 2 + (pyJsonDumps v2).length := by
        simp [serPair, serStr]
        omega
      match fuel, (by omega : 2 ≤ fuel) with
      | fuel + 2, _ =>
        rw [show pyJsonDumps (J.obj ((k2, v2) :: kvs)) ++ rest =
            '{' :: '"' ::
              (escStr k2 ++ '"' :: ':' :: ' ' ::
                (pyJsonDumps v2 ++ (serPairs kvs ++ '}' :: rest))) from by
          simp [pyJsonDumps, serPair, serStr]]
        rw [parseVal, if_neg (by decide), if_pos rfl, parseObj]
        have hmembers := parseMembers_dumps N ih kvs k2 v2 (by omega)
          (fun p hp => by have := jsize_mem_pairs hp; omega) fuel rest (by omega)
        have hdw : (('"' ::
            (escStr k2 ++ '"' :: ':' :: ' ' ::
              (pyJsonDumps v2 ++ (serPairs kvs ++ '}' :: rest)))).dropWhile isJsonWs) =
            '"' :: (escStr k2 ++ '"' :: ':' :: ' ' ::
              (pyJsonDumps v2 ++ (serPairs kvs ++ '}' :: rest))) :=
          dropWhile_cons_neg (by decide)
        simp only [hdw, hmembers]

/-! ## `json.loads ∘ json.dumps` and the coercer round trip -/

/-- The modelled `json.loads` inverts the modelled `json.dumps`. -/
theorem pyJsonLoads_pyJsonDumps (v : J) : pyJsonLoads (pyJsonDumps v) = .ok v := by
  unfold pyJsonLoads
  have hdw : (pyJsonDumps v).dropWhile isJsonWs = pyJsonDumps v := by
    have := dropWhile_ws_dumps v []
    simpa using this
  rw [hdw]
  have hparse := parseVal_pyJsonDumps (jsize v) v (Nat.le_refl _)
    (4 * (pyJsonDumps v).length + 8) [] (by omega) rfl
  rw [List.append_nil] at hparse
  simp only [hparse]
  simp

/-- `replaceQuotesNbsp` does nothing to printable ASCII. -/
theorem replaceQuotesNbsp_printable {c : Char} (h : isPrintableAscii c = true) :
    replaceQuotesNbsp c = c := by
  simp only [isPrintableAscii, Bool.and_eq_true, decide_eq_true_eq] at h
  unfold replaceQuotesNbsp
  rw [if_neg (by omega), if_neg (by omega), if_neg (by omega), if_neg (by omega),
      if_neg (by omega)]

/-- Printable ASCII is never stripped as a control character. -/
theorem not_ctl_of_printable {c : Char} (h : isPrintableAscii c = true) :
    isCtl c = false := by
  simp only [isPrintableAscii, Bool.and_eq_true, decide_eq_true_eq] at h
  simp only [isCtl, Bool.or_eq_false_iff, decide_eq_false_iff_not]
  omega

/-- Stripping does nothing when both ends are non-whitespace. -/
theorem pyStrip_bracketed (a b : Char) (mid : List Char) (ha : isPyWs a = false)
    (hb : isPyWs b = false) : pyStrip (a :: mid ++ [b]) = a :: mid ++ [b] := by
  unfold pyStrip
  rw [show a :: mid ++ [b] = a :: (mid ++ [b]) from by simp]
  rw [dropWhile_cons_neg ha]
  rw [show (a :: (mid ++ [b])).reverse = b :: (a :: mid).reverse from by simp]
  rw [dropWhile_cons_neg hb]
  simp

/-- Leading-fence stripping does nothing without leading backticks. -/
theorem stripFenceStart_noop (a : Char) (t : List Char) (ha : ¬ a = '`') :
    stripFenceStart (a :: t) = a :: t := by
  unfold stripFenceStart
  split
  · next heq =>
    rw [List.cons.injEq] at heq
    exact absurd heq.1 ha
  · rfl

/-- Trailing-fence stripping does nothing without trailing backticks. -/
theorem stripFenceEnd_noop (b : Char) (t : List Char) (hb : ¬ b = '`')
    (hrev : ∃ r, t.reverse = b :: r) :
    stripFenceEnd t = t := by
  obtain ⟨r, hr⟩ := hrev
  unfold stripFenceEnd
  rw [hr]
  split
  · next heq =>
    rw [List.cons.injEq] at heq
    exact absurd heq.1 hb
  · rfl

/-- Fence stripping does nothing to bracketed text. -/
theorem stripMarkdownFences_noop (a b : Char) (mid : List Char)
    (ha : ¬ a = '`') (hb : ¬ b = '`') :
    stripMarkdownFences (a :: mid ++ [b]) = a :: mid ++ [b] := by
  unfold stripMarkdownFences
  rw [show a :: mid ++ [b] = a :: (mid ++ [b]) from by simp, stripFenceStart_noop a _ ha]
  exact stripFenceEnd_noop b _ hb ⟨(a :: mid).reverse, by simp⟩

/-- The whole coercer pipeline maps `json.dumps` output back to the
value, given the serialized text's bracketing characters. -/
theorem cpj_dumps_aux (v : J) (is_list : Bool) (sc ec : Char) (mid : List Char)
    (hd : pyJsonDumps v = sc :: mid ++ [ec])
    (hsc : (if is_list then '[' else '{') = sc)
    (hec : (if is_list then ']' else '}') = ec)
    (hscw : isPyWs sc = false) (hecw : isPyWs ec = false)
    (hscb : ¬ sc = '`') (hecb : ¬ ec = '`') :
    clean_and_parse_json (pyJsonDumps v) is_list = some v := by
  have hprint : ∀ d ∈ pyJsonDumps v, isPrintableAscii d = true :=
    pyJsonDumps_printable (jsize v) v (Nat.le_refl _)
  unfold clean_and_parse_json
  rw [hd]
  rw [if_neg (by simp)]
  have hpre : coercerPreprocess (sc :: mid ++ [ec]) = sc :: mid ++ [ec] := by
    unfold coercerPreprocess
    rw [pyStrip_bracketed sc ec mid hscw hecw,
        stripMarkdownFences_noop sc ec mid hscb hecb,
        pyStrip_bracketed sc ec mid hscw hecw]
  have hfind : pyFind (if is_list then '[' else '{') (sc :: mid ++ [ec]) = some 0 := by
    unfold pyFind
    rw [show sc :: mid ++ [ec] = sc :: (mid ++ [ec]) from by simp]
    rw [List.findIdx?_cons]
    rw [hsc]
    simp
  have hrfind : pyRfind (if is_list then ']' else '}') (sc :: mid ++ [ec]) =
      some ((sc :: mid ++ [ec]).length - 1) := by
    unfold pyRfind
    rw [show (sc :: mid ++ [ec]).reverse = ec :: (sc :: mid).reverse from by simp]
    rw [List.findIdx?_cons, hec]
    simp
  have hlen : (sc :: mid ++ [ec]).length = mid.length + 2 := by simp
  have hslice : (List.take ((sc :: mid ++ [ec]).length - 1 + 1 - 0)
      (List.drop 0 (sc :: mid ++ [ec]))) = sc :: mid ++ [ec] := by
    rw [List.drop_zero]
    rw [show (sc :: mid ++ [ec]).length - 1 + 1 - 0 = (sc :: mid ++ [ec]).length from by
      omega]
    exact List.take_length _
  have hmap : (pyJsonDumps v).map replaceQuotesNbsp = pyJsonDumps v := by
    rw [List.map_congr_left (fun d hdm => replaceQuotesNbsp_printable (hprint d hdm))]
    exact List.map_id _
  have hfil : (pyJsonDumps v).filter (fun c => !isCtl c) = pyJsonDumps v := by
    rw [List.filter_eq_self.mpr]
    intro d hdm
    rw [not_ctl_of_printable (hprint d hdm)]
    rfl
  simp only [hpre, hfind, hrfind]
  rw [if_neg (show ¬ (sc :: mid ++ [ec]).length - 1 < 0 from by omega)]
  rw [hslice, ← hd, hmap, hfil, pyJsonLoads_pyJsonDumps v]

/-! ## Claim C6: coercer round trip -/

/-- C6: for every JSON object `V`, `clean_and_parse_json(serialize V,
is_list := false)` returns `V`, and for every JSON array `V`,
`clean_and_parse_json(serialize V, is_list := true)` returns `V` — the
flag `v.isArr` selects the matching bracket pair, exactly as the caller
does.  `jWF v` restricts to duplicate-free object keys, the values a
Python `dict` can hold (the serializer is the model of `json.dumps` with
defaults; numbers range over the embedded integers). -/
theorem C6_coercer_roundtrip (v : J) (hshape : (v.isArr || v.isObj) = true)
    (hwf : jWF v = true) :
    clean_and_parse_json (pyJsonDumps v) v.isArr = some v := by
  match v with
  | .arr l =>
    obtain ⟨mid, hmid⟩ := pyJsonDumps_arr_shape l
    exact cpj_dumps_aux (J.arr l) true '[' ']' mid hmid rfl rfl (by decide) (by decide)
      (by decide) (by decide)
  | .obj kvs =>
    obtain ⟨mid, hmid⟩ := pyJsonDumps_obj_shape kvs
    exact cpj_dumps_aux (J.obj kvs) false '{' '}' mid hmid rfl rfl (by decide) (by decide)
      (by decide) (by decide)
  | .null => simp [J.isArr, J.isObj] at hshape
  | .bool b => simp [J.isArr, J.isObj] at hshape
  | .num n => simp [J.isArr, J.isObj] at hshape
  | .str s => simp [J.isArr, J.isObj] at hshape

/-- Witness for C6 at a concrete object. -/
theorem C6_coercer_roundtrip_witness :
    (roundtripExample.isArr || roundtripExample.isObj) = true ∧
    jWF roundtripExample = true ∧
    clean_and_parse_json (pyJsonDumps roundtripExample) roundtripExample.isArr =
      some roundtripExample :=
  ⟨rfl, by decide, C6_coercer_roundtrip roundtripExample rfl (by decide)⟩

/-! ## Bracket-headed input decodes to the matching container -/

/-- `parseArr` only ever produces arrays. -/
theorem parseArr_shape (fuel : Nat) (s : List Char) (v : J) (r : List Char)
    (h : parseArr fuel s = .ok (v, r)) : ∃ l, v = J.arr l := by
  match fuel with
  | 0 =>
    rw [parseArr] at h
    exact absurd h (by simp)
  | fuel + 1 =>
    rw [parseArr] at h
    split at h
    · exact ⟨[], by injection h with h2; injection h2 with h3 _; exact h3.symm⟩
    · split at h
      · next vs r2 heq =>
        exact ⟨vs, by injection h with h2; injection h2 with h3 _; exact h3.symm⟩
      · exact absurd h (by simp)

/-- `parseObj` only ever produces objects. -/
theorem parseObj_shape (fuel : Nat) (s : List Char) (v : J) (r : List Char)
    (h : parseObj fuel s = .ok (v, r)) : ∃ kvs, v = J.obj kvs := by
  match fuel with
  | 0 =>
    rw [parseObj] at h
    exact absurd h (by simp)
  | fuel + 1 =>
    rw [parseObj] at h
    split at h
    · exact ⟨[], by injection h with h2; injection h2 with h3 _; exact h3.symm⟩
    · split at h
      · next kvs r2 heq =>
        exact ⟨kvs, by injection h with h2; injection h2 with h3 _; exact h3.symm⟩
      · exact absurd h (by simp)
    · exact absurd h (by simp)

/-- On input starting with `[`, a successful `parseVal` yields an array. -/
theorem parseVal_bracket_ok_arr (fuel : Nat) (t : List Char) (v : J) (r : List Char)
    (h : parseVal fuel ('[' :: t) = .ok (v, r)) : ∃ l, v = J.arr l := by
  match fuel with
  | 0 =>
    rw [parseVal] at h
    exact absurd h (by simp)
  | fuel + 1 =>
    rw [parseVal, if_neg (by decide), if_neg (by decide), if_pos rfl] at h
    exact parseArr_shape _ _ _ _ h

/-- On input starting with `{`, a successful `parseVal` yields an object. -/
theorem parseVal_brace_ok_obj (fuel : Nat) (t : List Char) (v : J) (r : List Char)
    (h : parseVal fuel ('{' :: t) = .ok (v, r)) : ∃ kvs, v = J.obj kvs := by
  match fuel with
  | 0 =>
    rw [parseVal] at h
    exact absurd h (by simp)
  | fuel + 1 =>
    rw [parseVal, if_neg (by decide), if_pos rfl] at h
    exact parseObj_shape _ _ _ _ h

/-- A successful decode of input starting with `[` is an array. -/
theorem pyJsonLoads_arr_of_bracket (r : List Char) (v : J)
    (h : pyJsonLoads ('[' :: r) = .ok v) : ∃ l, v = J.arr l := by
  unfold pyJsonLoads at h
  rw [dropWhile_cons_neg (by decide : isJsonWs '[' = false)] at h
  cases hpv : parseVal (4 * ('[' :: r).length + 8) ('[' :: r) with
  | error e => simp only [hpv] at h; exact absurd h (by simp)
  | ok p =>
    obtain ⟨w, rest⟩ := p
    simp only [hpv] at h
    split at h
    · injection h with h2
      subst h2
      exact parseVal_bracket_ok_arr _ _ _ _ hpv
    · exact absurd h (by simp)

/-- A successful decode of input starting with `{` is an object. -/
theorem pyJsonLoads_obj_of_brace (r : List Char) (v : J)
    (h : pyJsonLoads ('{' :: r) = .ok v) : ∃ kvs, v = J.obj kvs := by
  unfold pyJsonLoads at h
  rw [dropWhile_cons_neg (by decide : isJsonWs '{' = false)] at h
  cases hpv : parseVal (4 * ('{' :: r).length + 8) ('{' :: r) with
  | error e => simp only [hpv] at h; exact absurd h (by simp)
  | ok p =>
    obtain ⟨w, rest⟩ := p
    simp only [hpv] at h
    split at h
    · injection h with h2
      subst h2
      exact parseVal_brace_ok_obj _ _ _ _ hpv
    · exact absurd h (by simp)

/-- Locating a character and dropping to it exposes that character. -/
theorem drop_findIdx? (c : Char) : ∀ (t : List Char) (i : Nat),
    t.findIdx? (· = c) = some i → ∃ r, t.drop i = c :: r := by
  intro t
  induction t with
  | nil => intro i h; simp at h
  | cons d t' ih =>
    intro i h
    rw [List.findIdx?_cons] at h
    by_cases hd : d = c
    · rw [if_pos (by simp [hd])] at h
      injection h with h2
      subst h2
      exact ⟨t', by rw [List.drop_zero, hd]⟩
    · rw [if_neg (by simp [hd]), List.findIdx?_succ] at h
      cases hmap : t'.findIdx? (fun x => decide (x = c)) with
      | none => rw [hmap] at h; simp at h
      | some j =>
        rw [hmap] at h
        have h2 : j + 1 = i := by simpa using h
        subst h2
        have := ih j hmap
        simpa using this

/-- The repair pass keeps a leading non-comma character in place. -/
theorem fixTCAux_cons_head (fuel : Nat) (c : Char) (r : List Char) (hc : ¬ c = ',') :
    fixTCAux (fuel + 1) (c :: r) = c :: fixTCAux fuel r := by
  rw [fixTCAux, if_neg hc]

/-- The repair pass keeps a leading non-comma character in place. -/
theorem fixTrailingCommas_cons_head (c : Char) (X : List Char) (hc : ¬ c = ',') :
    fixTrailingCommas (c :: X) = c :: fixTCAux ((c :: X).length) X := by
  rw [fixTrailingCommas]
  exact fixTCAux_cons_head _ _ _ hc

/-- With `is_list = True`, any successful coercion decoded a text that
starts with `[` (either directly or after the trailing-comma repair). -/
theorem cpj_true_loads_bracket (t : List Char) (v : J)
    (h : clean_and_parse_json t true = some v) :
    ∃ r, pyJsonLoads ('[' :: r) = .ok v := by
  unfold clean_and_parse_json at h
  split at h
  · exact absurd h (by simp)
  · rw [show (if (true : Bool) = true then '[' else '{') = '[' from rfl,
       show (if (true : Bool) = true then ']' else '}') = ']' from rfl] at h
    cases hfind : pyFind '[' (coercerPreprocess t) with
    | none => simp only [hfind] at h; exact absurd h (by simp)
    | some si =>
      cases hrfind : pyRfind ']' (coercerPreprocess t) with
      | none => simp only [hfind, hrfind] at h; exact absurd h (by simp)
      | some ei =>
        simp only [hfind, hrfind] at h
        split at h
        · exact absurd h (by simp)
        · obtain ⟨r0, hdrop⟩ := drop_findIdx? '[' (coercerPreprocess t) si hfind
          rw [hdrop, show ei + 1 - si = (ei - si) + 1 from by
              rename_i hnotlt; omega,
            List.take_succ_cons, List.map_cons,
            show replaceQuotesNbsp '[' = '[' from by decide,
            List.filter_cons_of_pos (by decide)] at h
          split at h
          · next w hw =>
            injection h with h2
            subst h2
            exact ⟨_, hw⟩
          · split at h
            · split at h
              · next w hw =>
                injection h with h2
                subst h2
                rw [fixTrailingCommas_cons_head '[' _ (by decide)] at hw
                exact ⟨_, hw⟩
              · exact absurd h (by simp)
            · exact absurd h (by simp)

/-- C10: whenever `clean_and_parse_json` is called with `is_list=True`
and returns a non-`None` value, that value is a JSON array, and hence the
caller's named-key unwrap branch and its wrap-single-value branch are
never taken: the unwrap is the identity on the array's element list. -/
theorem C10_is_list_forces_array (t : List Char) (v : J)
    (h : clean_and_parse_json t true = some v) :
    ∃ l, v = J.arr l ∧ unwrapQuiz v = l := by
  obtain ⟨r, hr⟩ := cpj_true_loads_bracket t v h
  obtain ⟨l, hl⟩ := pyJsonLoads_arr_of_bracket r v hr
  exact ⟨l, hl, by rw [hl, unwrapQuiz]⟩

theorem C10_is_list_forces_array_witness :
    clean_and_parse_json ('[' :: '1' :: ']' :: []) true = some (J.arr [J.num 1]) ∧
    ∃ l, J.arr [J.num 1] = J.arr l ∧ unwrapQuiz (J.arr [J.num 1]) = l :=
  ⟨rfl, C10_is_list_forces_array ('[' :: '1' :: ']' :: []) (J.arr [J.num 1]) rfl⟩

/-- C7: the coercer is modelled as a total function into `Option J`, so
every input (empty, whitespace-only, bracket-free prose, ...) yields a
parsed value or the failure indicator `none` and no exception escapes;
moreover whenever it succeeds, all of its guards were passed: the text was
nonempty, the expected opening bracket and matching closing bracket were
both found, and the closing position did not precede the opening one —
equivalently, it fails (with `none`, not an exception) on empty text, on a
missing bracket, and on an inverted bracket pair. -/
theorem C7_coercer_guards (t : List Char) (is_list : Bool)
    (h : (clean_and_parse_json t is_list).isSome = true) :
    t.isEmpty = false ∧
    ∃ si ei, pyFind (if is_list then '[' else '{') (coercerPreprocess t) = some si ∧
      pyRfind (if is_list then ']' else '}') (coercerPreprocess t) = some ei ∧
      si ≤ ei := by
  unfold clean_and_parse_json at h
  split at h
  · exact absurd h (by simp)
  · next hne =>
    refine ⟨by simpa using hne, ?_⟩
    cases hfind : pyFind (if is_list then '[' else '{') (coercerPreprocess t) with
    | none =>
      simp only [hfind] at h
      exact absurd h (by simp)
    | some si =>
      cases hrfind : pyRfind (if is_list then ']' else '}') (coercerPreprocess t) with
      | none =>
        simp only [hfind, hrfind] at h
        exact absurd h (by simp)
      | some ei =>
        by_cases hlt : ei < si
        · simp only [hfind, hrfind, if_pos hlt] at h
          exact absurd h (by simp)
        · exact ⟨si, ei, rfl, rfl, by omega⟩

theorem C7_coercer_guards_witness :
    (clean_and_parse_json ('[' :: ']' :: []) true).isSome = true ∧
    ((('[' :: ']' :: []) : List Char).isEmpty = false ∧
     ∃ si ei,
       pyFind (if (true : Bool) then '[' else '{')
         (coercerPreprocess ('[' :: ']' :: [])) = some si ∧
       pyRfind (if (true : Bool) then ']' else '}')
         (coercerPreprocess ('[' :: ']' :: [])) = some ei ∧
       si ≤ ei) :=
  ⟨rfl, C7_coercer_guards ('[' :: ']' :: []) true rfl⟩

/-! ## Quiz fallback characterization -/

/-- A falsy coerced value contributes no valid questions: the unwrap of
`None`, `False`, `0`, `""`, `[]` or `{}` is either empty or a single
non-dict (or empty-dict) entry that the validity filter rejects. -/
theorem filter_valid_of_falsy (t : J) (h : pyTruthy t = false) :
    (unwrapQuiz t).filter isValidQuestion = [] := by
  cases t with
  | null => rfl
  | bool b =>
    cases b
    · rfl
    · simp [pyTruthy] at h
  | num n =>
    have hn : n = 0 := by simpa [pyTruthy] using h
    subst hn
    rfl
  | str s =>
    cases s with
    | nil => rfl
    | cons c cs => simp [pyTruthy] at h
  | arr l =>
    cases l with
    | nil => rfl
    | cons x xs => simp [pyTruthy] at h
  | obj kvs =>
    cases kvs with
    | nil => rfl
    | cons kv rest => simp [pyTruthy] at h

/-- C3: the final quiz fallback (replacing the whole quiz with exactly one
fixed fallback question) triggers if and only if fewer than 5 questions
satisfying the validity filter survive after coercion and filtering, and
the emitted quiz always has length at least 1. -/
theorem C3_fallback_iff (quiz_text : Option (List Char)) :
    (quizFallbackTriggered quiz_text = true ↔
      (survivingQuestions quiz_text).length < 5) ∧
    1 ≤ (finalQuiz quiz_text).length := by
  constructor
  · cases quiz_text with
    | none => simp [quizFallbackTriggered, quizDataOpt, survivingQuestions]
    | some qt =>
      by_cases hemp : qt.isEmpty
      · have hc : clean_and_parse_json qt true = none := by
          unfold clean_and_parse_json
          rw [if_pos hemp]
        simp [quizFallbackTriggered, quizDataOpt, survivingQuestions, hemp, hc]
      · cases hc : clean_and_parse_json qt true with
        | none =>
          simp [quizFallbackTriggered, quizDataOpt, survivingQuestions, hemp, hc]
        | some tq =>
          by_cases htr : pyTruthy tq = true
          · simp [quizFallbackTriggered, quizDataOpt, survivingQuestions, hemp, hc, htr]
          · have hf := filter_valid_of_falsy tq (by simpa using htr)
            simp [quizFallbackTriggered, quizDataOpt, survivingQuestions, hemp, hc, htr, hf]
  · unfold finalQuiz
    cases hq : quizDataOpt quiz_text with
    | none => simp
    | some l =>
      show 1 ≤ (if l.length < 5 then [fallbackQuestion] else l).length
      by_cases hl : l.length < 5
      · rw [if_pos hl]
        simp
      · rw [if_neg hl]
        omega

theorem C3_fallback_iff_witness :
    (quizFallbackTriggered none = true ↔ (survivingQuestions none).length < 5) ∧
    1 ≤ (finalQuiz none).length :=
  C3_fallback_iff none

/-- With `is_list = False`, any successful coercion decoded a text that
starts with `{` (either directly or after the trailing-comma repair). -/
theorem cpj_false_loads_brace (t : List Char) (v : J)
    (h : clean_and_parse_json t false = some v) :
    ∃ r, pyJsonLoads ('{' :: r) = .ok v := by
  unfold clean_and_parse_json at h
  split at h
  · exact absurd h (by simp)
  · rw [show (if (false : Bool) = true then '[' else '{') = '{' from rfl,
       show (if (false : Bool) = true then ']' else '}') = '}' from rfl] at h
    cases hfind : pyFind '{' (coercerPreprocess t) with
    | none => simp only [hfind] at h; exact absurd h (by simp)
    | some si =>
      cases hrfind : pyRfind '}' (coercerPreprocess t) with
      | none => simp only [hfind, hrfind] at h; exact absurd h (by simp)
      | some ei =>
        simp only [hfind, hrfind] at h
        split at h
        · exact absurd h (by simp)
        · obtain ⟨r0, hdrop⟩ := drop_findIdx? '{' (coercerPreprocess t) si hfind
          rw [hdrop, show ei + 1 - si = (ei - si) + 1 from by
              rename_i hnotlt; omega,
            List.take_succ_cons, List.map_cons,
            show replaceQuotesNbsp '{' = '{' from by decide,
            List.filter_cons_of_pos (by decide)] at h
          split at h
          · next w hw =>
            injection h with h2
            subst h2
            exact ⟨_, hw⟩
          · split at h
            · split at h
              · next w hw =>
                injection h with h2
                subst h2
                rw [fixTrailingCommas_cons_head '{' _ (by decide)] at hw
                exact ⟨_, hw⟩
              · exact absurd h (by simp)
            · exact absurd h (by simp)

/-- Python `split` always returns at least one piece. -/
theorem splitOnBlank_ne_nil (t : List Char) : splitOnBlank t ≠ [] := by
  rw [splitOnBlank.eq_def]
  split
  · simp
  · simp
  · split <;> simp

/-- The fallback explanation content has between 1 and 5 entries. -/
theorem explanationFallbackContent_bounds (et : Option (List Char)) :
    1 ≤ (explanationFallbackContent et).length ∧
    (explanationFallbackContent et).length ≤ 5 := by
  match et with
  | none => simp [explanationFallbackContent]
  | some t =>
    by_cases hemp : t.isEmpty
    · simp [explanationFallbackContent, hemp]
    · simp only [explanationFallbackContent, if_neg hemp, List.length_map,
        List.length_take]
      have hne := splitOnBlank_ne_nil t
      have hpos : 0 < (splitOnBlank t).length := List.length_pos.mpr hne
      omega

/-- A successfully parsed explanation completion is a JSON object
(dict), because the coercer was called with `is_list=False`. -/
theorem explanationParsed_isObj (et : Option (List Char)) (d : J)
    (hp : explanationParsed et = some d) : ∃ kvs, d = J.obj kvs := by
  match et with
  | none => simp [explanationParsed] at hp
  | some t =>
    by_cases hemp : t.isEmpty
    · simp [explanationParsed, hemp] at hp
    · simp only [explanationParsed, if_neg hemp] at hp
      obtain ⟨r, hr⟩ := cpj_false_loads_brace t d hp
      exact pyJsonLoads_obj_of_brace r d hr

/-- `explanation_data` is always a dict: either the parsed object or the
synthesized fallback dict. -/
theorem explanationData_isObj (et : Option (List Char)) :
    ∃ kvs, explanationData et = J.obj kvs := by
  unfold explanationData
  cases hp : explanationParsed et with
  | none => exact ⟨_, rfl⟩
  | some d =>
    obtain ⟨kvs, hk⟩ := explanationParsed_isObj et d hp
    exact ⟨kvs, hk⟩

/-- C1 (amended): for every completion the stored explanation field is a
one-element array containing a dict — the decoded object when parsing
succeeds (with no validation of its `topic`/`content` shape), otherwise
the synthesized fallback dict whose `topic` marks the failure and whose
`content` has between 1 and 5 entries (not always exactly 5). -/
theorem C1_explanation_shape (et : Option (List Char)) :
    ∃ kvs, explanationField et = J.arr [J.obj kvs] ∧
      (explanationParsed et = none →
        kvs = [("topic".toList, J.str explanationFailTopic),
               ("content".toList, J.arr (explanationFallbackContent et))] ∧
        1 ≤ (explanationFallbackContent et).length ∧
        (explanationFallbackContent et).length ≤ 5) := by
  obtain ⟨kvs, hk⟩ := explanationData_isObj et
  refine ⟨kvs, ?_, ?_⟩
  · unfold explanationField
    rw [hk]
  · intro hnone
    have hd : explanationData et =
        J.obj [("topic".toList, J.str explanationFailTopic),
               ("content".toList, J.arr (explanationFallbackContent et))] := by
      unfold explanationData
      rw [hnone]
    rw [hk] at hd
    injection hd with h2
    exact ⟨h2, (explanationFallbackContent_bounds et).1,
      (explanationFallbackContent_bounds et).2⟩

theorem C1_explanation_shape_witness :
    ∃ kvs, explanationField none = J.arr [J.obj kvs] ∧
      (explanationParsed none = none →
        kvs = [("topic".toList, J.str explanationFailTopic),
               ("content".toList, J.arr (explanationFallbackContent none))] ∧
        1 ≤ (explanationFallbackContent none).length ∧
        (explanationFallbackContent none).length ≤ 5) :=
  C1_explanation_shape none

/-- C1 counterexample to the claimed shape validation: the completion
`\x7b"a": 1\x7d` parses, so the stored explanation is the one-element array
holding that object unchanged — its sole element has no `topic` and no
`content` field, and no fallback is substituted. -/
theorem C1_explanation_shape_counterexample :
    explanationField (some explanationCounterexampleText) =
      J.arr [J.obj [("a".toList, J.num 1)]] ∧
    jGet [(("a".toList : List Char), J.num 1)] "topic".toList = none ∧
    jGet [(("a".toList : List Char), J.num 1)] "content".toList = none := by
  refine ⟨rfl, rfl, rfl⟩

/-- C4 (amended): when the coercer returns `None` for the explanation
completion, the fallback content is the first 5 blank-line-separated
blocks of the raw completion text — between 1 and 5 entries, not always
exactly 5 — and the single placeholder string arises exactly when no
completion text exists (`None` or empty). -/
theorem C4_explanation_fallback (t : List Char) (hne : t.isEmpty = false) :
    explanationFallbackContent (some t) = ((splitOnBlank t).take 5).map J.str ∧
    1 ≤ (explanationFallbackContent (some t)).length ∧
    (explanationFallbackContent (some t)).length ≤ 5 ∧
    explanationFallbackContent none = [J.str explanationPlaceholder] := by
  refine ⟨?_, (explanationFallbackContent_bounds (some t)).1,
    (explanationFallbackContent_bounds (some t)).2, rfl⟩
  simp [explanationFallbackContent, hne]

theorem C4_explanation_fallback_witness :
    ((['h', 'i'] : List Char).isEmpty = false) ∧
    (explanationFallbackContent (some ['h', 'i']) =
        ((splitOnBlank ['h', 'i']).take 5).map J.str ∧
      1 ≤ (explanationFallbackContent (some ['h', 'i'])).length ∧
      (explanationFallbackContent (some ['h', 'i'])).length ≤ 5 ∧
      explanationFallbackContent none = [J.str explanationPlaceholder]) :=
  ⟨rfl, C4_explanation_fallback ['h', 'i'] rfl⟩

/-- C4 counterexample to "always contains exactly 5 entries": the
completion `hello` exists, the coercer returns `None` on it, and the
synthesized fallback content is a single block, not 5. -/
theorem C4_explanation_fallback_counterexample :
    explanationParsed (some ['h', 'e', 'l', 'l', 'o']) = none ∧
    explanationFallbackContent (some ['h', 'e', 'l', 'l', 'o']) =
      [J.str ['h', 'e', 'l', 'l', 'o']] ∧
    (explanationFallbackContent (some ['h', 'e', 'l', 'l', 'o'])).length = 1 :=
  ⟨rfl, rfl, rfl⟩

/-- C5 (amended): the truncation marker is appended after slicing, so the
context sent to the API is bounded by MAX_API_CONTEXT_SIZE plus the
marker length (not by MAX_API_CONTEXT_SIZE itself); inputs within the
budget pass through unchanged. -/
theorem C5_truncation_bound (s : List Char) :
    (truncateContext s).length ≤ MAX_API_CONTEXT_SIZE + truncationMarker.length ∧
    (s.length ≤ MAX_API_CONTEXT_SIZE → truncateContext s = s) := by
  constructor
  · unfold truncateContext
    split
    · rw [List.length_append, List.length_take]
      omega
    · next h =>
      simp only [MAX_API_CONTEXT_SIZE] at h ⊢
      omega
  · intro hle
    unfold truncateContext
    rw [if_neg (by omega)]

theorem C5_truncation_bound_witness :
    (truncateContext ['a']).length ≤ MAX_API_CONTEXT_SIZE + truncationMarker.length ∧
    ((['a'] : List Char).length ≤ MAX_API_CONTEXT_SIZE → truncateContext ['a'] = ['a']) :=
  C5_truncation_bound ['a']

/-- C5 counterexample to "length at most MAX_API_CONTEXT_SIZE": one
character over the budget yields a truncated context of 8054 characters,
exceeding the configured maximum of 8000. -/
theorem C5_truncation_counterexample :
    (truncateContext (List.replicate 8001 'a')).length = 8054 ∧
    MAX_API_CONTEXT_SIZE < (truncateContext (List.replicate 8001 'a')).length := by
  have hm : truncationMarker.length = 54 := rfl
  have h : (truncateContext (List.replicate 8001 'a')).length = 8054 := by
    unfold truncateContext
    rw [if_pos (by
      simp only [List.length_replicate, MAX_API_CONTEXT_SIZE, gt_iff_lt]
      omega)]
    rw [List.length_append, List.length_take, List.length_replicate, hm]
    simp only [MAX_API_CONTEXT_SIZE]
    omega
  refine ⟨h, ?_⟩
  rw [h]
  simp only [MAX_API_CONTEXT_SIZE]
  omega

/-! ## Final quiz composition -/

/-- Any non-`none` `quiz_data` is the validity-filtered unwrap of some
coerced value. -/
theorem quizDataOpt_filter (qt : Option (List Char)) (l : List J)
    (h : quizDataOpt qt = some l) :
    ∃ tq, l = (unwrapQuiz tq).filter isValidQuestion := by
  match qt with
  | none => simp [quizDataOpt] at h
  | some t =>
    by_cases hemp : t.isEmpty
    · simp [quizDataOpt, hemp] at h
    · simp only [quizDataOpt, if_neg hemp] at h
      cases hc : clean_and_parse_json t true with
      | none =>
        simp only [hc] at h
        exact absurd h (by simp)
      | some tq =>
        simp only [hc] at h
        by_cases htr : pyTruthy tq = true
        · rw [if_pos htr] at h
          injection h with h2
          exact ⟨tq, h2.symm⟩
        · rw [if_neg htr] at h
          exact absurd h (by simp)

/-- Evaluation of `quiz_data` on a nonempty completion whose coercion
succeeds with a truthy value. -/
theorem quizDataOpt_some_eq (qt : List Char) (tq : J)
    (hemp : qt.isEmpty = false)
    (hc : clean_and_parse_json qt true = some tq)
    (htr : pyTruthy tq = true) :
    quizDataOpt (some qt) = some ((unwrapQuiz tq).filter isValidQuestion) := by
  simp only [quizDataOpt, hemp, hc, htr]
  simp

/-- C8 (amended): every question in the final quiz of a non-fallback
response passed the validity filter — a dict with truthy `question`,
`options` and `correctAnswer` whose `options` is a list of length at
least 4.  The filter does not require exactly 4 options, nor that
`correctAnswer` be one of `A`–`D`. -/
theorem C8_final_quiz_filter (quiz_text : Option (List Char))
    (h : quizFallbackTriggered quiz_text = false) :
    ∀ q ∈ finalQuiz quiz_text, isValidQuestion q = true := by
  unfold quizFallbackTriggered at h
  cases hq : quizDataOpt quiz_text with
  | none =>
    simp only [hq] at h
    exact absurd h (by simp)
  | some l =>
    simp only [hq] at h
    have hlen : ¬ l.length < 5 := by simpa using h
    have hfq : finalQuiz quiz_text = l := by
      simp only [finalQuiz, hq]
      rw [if_neg hlen]
    obtain ⟨tq, hl⟩ := quizDataOpt_filter quiz_text l hq
    intro q hmem
    rw [hfq, hl] at hmem
    exact (List.mem_filter.mp hmem).2

theorem C8_final_quiz_filter_witness :
    quizFallbackTriggered (some quizWitnessText) = false ∧
    ∀ q ∈ finalQuiz (some quizWitnessText), isValidQuestion q = true := by
  obtain ⟨mid, hmid⟩ := pyJsonDumps_arr_shape quizWitnessList
  have hcpj : clean_and_parse_json quizWitnessText true = some (J.arr quizWitnessList) :=
    cpj_dumps_aux (J.arr quizWitnessList) true '[' ']' mid hmid rfl rfl
      (by decide) (by decide) (by decide) (by decide)
  have hemp : quizWitnessText.isEmpty = false := by
    show (pyJsonDumps (J.arr quizWitnessList)).isEmpty = false
    rw [hmid]
    simp
  have hq : quizDataOpt (some quizWitnessText) = some quizWitnessList := by
    rw [quizDataOpt_some_eq quizWitnessText (J.arr quizWitnessList) hemp hcpj
      (by decide)]
    rfl
  have htrig : quizFallbackTriggered (some quizWitnessText) = false := by
    simp only [quizFallbackTriggered, hq]
    rfl
  exact ⟨htrig, C8_final_quiz_filter (some quizWitnessText) htrig⟩

/-- C8 counterexample to the claimed QuizQuestion shape: a quiz of five
questions, each with five options and correct answer `E`, passes the
filter untouched: the fallback does not trigger, the final quiz carries
these questions, and their `options`/`correctAnswer` violate the
"exactly 4 strings" and "one of A–D" requirements. -/
theorem C8_final_quiz_filter_counterexample :
    quizFallbackTriggered (some badQuizText) = false ∧
    finalQuiz (some badQuizText) = badQuizList ∧
    badQuestion ∈ badQuizList ∧
    jGet badQuestionKvs "options".toList =
      some (J.arr [J.str ['a'], J.str ['b'], J.str ['c'], J.str ['d'], J.str ['e']]) ∧
    jGet badQuestionKvs "correctAnswer".toList = some (J.str ['E']) := by
  obtain ⟨mid, hmid⟩ := pyJsonDumps_arr_shape badQuizList
  have hcpj : clean_and_parse_json badQuizText true = some (J.arr badQuizList) :=
    cpj_dumps_aux (J.arr badQuizList) true '[' ']' mid hmid rfl rfl
      (by decide) (by decide) (by decide) (by decide)
  have hemp : badQuizText.isEmpty = false := by
    show (pyJsonDumps (J.arr badQuizList)).isEmpty = false
    rw [hmid]
    simp
  have hq : quizDataOpt (some badQuizText) = some badQuizList := by
    rw [quizDataOpt_some_eq badQuizText (J.arr badQuizList) hemp hcpj (by decide)]
    rfl
  have htrig : quizFallbackTriggered (some badQuizText) = false := by
    simp only [quizFallbackTriggered, hq]
    rfl
  have hfq : finalQuiz (some badQuizText) = badQuizList := by
    simp only [finalQuiz, hq]
    rw [if_neg (by decide)]
  exact ⟨htrig, hfq, by simp [badQuizList], rfl, rfl⟩

/-- C2: the coercer does recover a fenced object and a curly-quoted
object, but an otherwise-valid object with a single trailing comma
before the closing brace is NOT recovered: the strict parse fails with
the property-name error class, which the repair condition (delimiter-
expected or extra-data) does not match — although the repair pass itself
would have fixed exactly this text. -/
theorem C2_repair_class_mismatch :
    clean_and_parse_json fencedText false = some (J.obj [("a".toList, J.num 1)]) ∧
    clean_and_parse_json curlyQuoteText false = some (J.obj [("a".toList, J.num 1)]) ∧
    clean_and_parse_json trailingCommaText false = none ∧
    pyJsonLoads trailingCommaText = .error .expectingPropertyName ∧
    pyJsonLoads (fixTrailingCommas trailingCommaText) =
      .ok (J.obj [("a".toList, J.num 1)]) :=
  ⟨rfl, rfl, rfl, rfl, rfl⟩

/-! ## Extraction diagnostics -/

/-- The extension of a filename ending in a dot and three
non-dot characters. -/
theorem fileExtension_suffix (stem : List Char) (a b c : Char)
    (ha : ¬ a = '.') (hb : ¬ b = '.') (hc : ¬ c = '.') :
    fileExtension (stem ++ ['.', a, b, c]) =
      [a.toLower, b.toLower, c.toLower] := by
  unfold fileExtension
  rw [if_pos (by simp)]
  rw [show (stem ++ ['.', a, b, c]).reverse = c :: b :: a :: '.' :: stem.reverse from
    by simp]
  rw [List.takeWhile_cons_of_pos (by simpa using hc),
      List.takeWhile_cons_of_pos (by simpa using hb),
      List.takeWhile_cons_of_pos (by simpa using ha),
      List.takeWhile_cons_of_neg (by simp)]
  simp

/-- C9: extraction is a total function into strings (no exception
crosses its boundary in the model), and on any supported filename whose
underlying library call fails, the result is the bracketed diagnostic
embedding the filename and the caught exception message: shown for every
`.txt` filename with a failing decode and every `.pdf` filename with a
failing reader, for arbitrary exception messages and arbitrary outcomes
of the other oracle. -/
theorem C9_extraction_diagnostics (stem : List Char) (pdfSupport : Bool)
    (etxt epdf : List Char)
    (pdfOracle : Except (List Char) (List (Except (List Char) (List Char))))
    (txtOracle : Except (List Char) (List Char)) :
    extract_text_from_file (stem ++ ['.', 't', 'x', 't']) pdfSupport
        (.error etxt) pdfOracle =
      "[TXT parsing failed for ".toList ++ (stem ++ ['.', 't', 'x', 't']) ++
        ". Error: ".toList ++ etxt ++ "]".toList ∧
    extract_text_from_file (stem ++ ['.', 'p', 'd', 'f']) true
        txtOracle (.error epdf) =
      "[PDF parsing failed for ".toList ++ (stem ++ ['.', 'p', 'd', 'f']) ++
        ". The file may be corrupt or non-standard. Error: ".toList ++
        epdf ++ "]".toList ∧
    allowed_file (stem ++ ['.', 't', 'x', 't']) = true ∧
    allowed_file (stem ++ ['.', 'p', 'd', 'f']) = true := by
  have h1 : fileExtension (stem ++ ['.', 't', 'x', 't']) = ['t', 'x', 't'] := by
    rw [fileExtension_suffix stem 't' 'x' 't' (by decide) (by decide) (by decide)]
    decide
  have h2 : fileExtension (stem ++ ['.', 'p', 'd', 'f']) = ['p', 'd', 'f'] := by
    rw [fileExtension_suffix stem 'p' 'd' 'f' (by decide) (by decide) (by decide)]
    decide
  refine ⟨?_, ?_, ?_, ?_⟩
  · simp only [extract_text_from_file]
    rw [if_pos (show fileExtension (stem ++ ['.', 't', 'x', 't']) = "txt".toList from
      by rw [h1]; rfl)]
  · simp only [extract_text_from_file]
    rw [if_neg (show ¬ fileExtension (stem ++ ['.', 'p', 'd', 'f']) = "txt".toList from
          by rw [h2]; decide),
        if_pos (And.intro
          (show fileExtension (stem ++ ['.', 'p', 'd', 'f']) = "pdf".toList from
            by rw [h2]; rfl)
          trivial)]
  · simp only [allowed_file, h1]
    simp
  · simp only [allowed_file, h2]
    simp
